import Mathlib

/-!
Verification of the philosophy-dialog orchestrator (TypeScript sources under
src/).  The development shallowly embeds, in Lean, the parts of the final
consolidated class PhilosophyDialog that the checked properties concern:

 * the persistent key-value store for per-side participant data and the
   two-phase pending system-instruction proposal protocol
   (readModelDataFromDir, writeModelDataToDir,
   readPendingSystemInstructionsFromFile, writePendingSystemInstructionsToFile,
   setAdditionalSystemInstructions, agreeToSystemInstructionsChange,
   commitSystemInstructions, setPersonalNotes, getPersonalNotes);
 * the sleep tool handler (sleepToolHandler) together with a small model of
   JavaScript numbers;
 * the GraphRAG query handler (graphRagQueryHandler) with its tokenizer,
   against an oracle for the graph store and the condensing vendor call;
 * the dialog orchestrator: the two turn executors (openaiTurn,
   anthropicTurn), tool dispatch, the finish sequence (finish) and the main
   run loop (runLoop), modelled as pure state-passing functions over an
   explicit DialogState that also records an append-only trace of the
   observable events (vendor API requests, tool dispatches, log records).

File I/O in the store is modelled on its success path: the TypeScript
handlers catch storage exceptions and fall back to success:false, a branch a
pure state can not trigger; the pure model therefore has the reads and
writes always succeed.  Vendor responses are supplied by finite scripts; an
exhausted script models a failing vendor request (the corresponding API call
throws), which exercises the same catch blocks as a network error.
-/

namespace PhilosophyDialog

/-- The two participant identities (type ModelSide in the source). -/
inductive ModelSide
  | openai
  | anthropic
deriving DecidableEq, Repr

/-! ## Persistent key-value store and the pending-proposal protocol -/

/-- Per-side participant data record (type Data in the source). -/
structure Data where
  personalNotes : String
  additionalSystemInstructions : String
deriving DecidableEq, Repr

/-- A pending system-instruction change proposal
(type PendingSystemInstructions in the source). -/
structure PendingSystemInstructions where
  instructions : String
  requestedBy : ModelSide
  createdAt : String
deriving DecidableEq, Repr

/-- The file-backed state the instruction-negotiation handlers touch: one
Data record per side plus the optional pending-proposal file (absent file =
none). -/
structure KVState where
  openaiData : Data
  anthropicData : Data
  pending : Option PendingSystemInstructions
deriving DecidableEq, Repr

/-- Model of readModelDataFromDir: on the success path it returns the stored
record (the catch branch returning empty defaults corresponds to a missing
or unreadable file, which the pure state does not produce). -/
def readModelData (σ : KVState) : ModelSide → Data
  | .openai => σ.openaiData
  | .anthropic => σ.anthropicData

/-- Model of writeModelDataToDir. -/
def writeModelData (σ : KVState) : ModelSide → Data → KVState
  | .openai, d => { σ with openaiData := d }
  | .anthropic, d => { σ with anthropicData := d }

/-- Model of readPendingSystemInstructionsFromFile: a stored record whose
instructions field is falsy (the empty string) reads back as null.  The
requestedBy falsiness check of the source can not fire in the model, where
requestedBy is always one of the two sides. -/
def readPendingSystemInstructions (σ : KVState) : Option PendingSystemInstructions :=
  match σ.pending with
  | none => none
  | some p => if p.instructions = "" then none else some p

/-- Model of writePendingSystemInstructionsToFile: writing null deletes the
file. -/
def writePendingSystemInstructions (σ : KVState)
    (p : Option PendingSystemInstructions) : KVState :=
  { σ with pending := p }

/-- Model of commitSystemInstructions: copies the agreed instructions into
both sides' participant records (anthropic first, then openai, as in the
source). -/
def commitSystemInstructions (instructions : String) (σ : KVState) : KVState :=
  let σ := writeModelData σ .anthropic
    { readModelData σ .anthropic with additionalSystemInstructions := instructions }
  writeModelData σ .openai
    { readModelData σ .openai with additionalSystemInstructions := instructions }

/-- The JS whitespace class (the regex escape for whitespace together with
String.prototype.trim): ASCII space and control whitespace, NBSP, the
Unicode space block, line and paragraph separators, narrow NBSP, medium
mathematical space, ideographic space and the BOM. -/
def jsWhitespaceChar (c : Char) : Bool :=
  c = ' ' ∨ c = '\t' ∨ c = '\n' ∨ c = '\r' ∨ c.toNat = 0xb ∨ c.toNat = 0xc ∨
  c.toNat = 0xa0 ∨ c.toNat = 0x1680 ∨
  (0x2000 ≤ c.toNat ∧ c.toNat ≤ 0x200a) ∨
  c.toNat = 0x2028 ∨ c.toNat = 0x2029 ∨ c.toNat = 0x202f ∨ c.toNat = 0x205f ∨
  c.toNat = 0x3000 ∨ c.toNat = 0xfeff

/-- String.prototype.trim: the maximal whitespace prefix and suffix
removed. -/
def jsTrim (s : String) : String :=
  String.mk (((s.data.dropWhile jsWhitespaceChar).reverse.dropWhile
    jsWhitespaceChar).reverse)

/-- Result shape of the set_additional_system_instructions handler. -/
structure SetInstructionsResult where
  success : Bool
  error : Option String
  pending : Option Bool
  requested_by : Option ModelSide
deriving DecidableEq, Repr

/-- Error text returned for a blank systemInstructions argument. -/
def emptyInstructionsError : String := "systemInstructions を入力してください。"

/-- Error text returned when a proposal from the other side is pending. -/
def otherSidePendingError : String :=
  "相手側からの変更提案への合意待ちがあるため、新規提案はできません。"

/-- Model of the setAdditionalSystemInstructions handler.  The now argument
stands for new Date().toISOString(). -/
def setAdditionalSystemInstructions (modelSide : ModelSide)
    (systemInstructions : String) (now : String) (σ : KVState) :
    SetInstructionsResult × KVState :=
  let instructions := jsTrim systemInstructions
  if instructions = "" then
    ({ success := false, error := some emptyInstructionsError,
       pending := none, requested_by := none }, σ)
  else
    match readPendingSystemInstructions σ with
    | some existingPending =>
      if existingPending.requestedBy ≠ modelSide then
        ({ success := false, error := some otherSidePendingError,
           pending := none, requested_by := none }, σ)
      else
        ({ success := true, error := none, pending := some true,
           requested_by := some modelSide },
         writePendingSystemInstructions σ
           (some { instructions, requestedBy := modelSide, createdAt := now }))
    | none =>
        ({ success := true, error := none, pending := some true,
           requested_by := some modelSide },
         writePendingSystemInstructions σ
           (some { instructions, requestedBy := modelSide, createdAt := now }))

/-- Result shape of the agree_to_system_instructions_change handler. -/
structure AgreeResult where
  success : Bool
  committed : Option Bool
  error : Option String
deriving DecidableEq, Repr

/-- Error text returned when no proposal is pending. -/
def noPendingError : String := "合意待ちのシステムインストラクションはありません。"

/-- Error text returned when the proposer tries to agree to its own
proposal. -/
def ownProposalError : String :=
  "自分で提案した変更には同意できません。相手側の同意を待ってください。"

/-- Model of the agreeToSystemInstructionsChange handler. -/
def agreeToSystemInstructionsChange (modelSide : ModelSide) (σ : KVState) :
    AgreeResult × KVState :=
  match readPendingSystemInstructions σ with
  | none =>
      ({ success := false, committed := none, error := some noPendingError }, σ)
  | some pending =>
    if pending.requestedBy = modelSide then
      ({ success := false, committed := none, error := some ownProposalError }, σ)
    else
      ({ success := true, committed := some true, error := none },
       writePendingSystemInstructions
         (commitSystemInstructions pending.instructions σ) none)

/-- Model of the setPersonalNotes handler (success path). -/
def setPersonalNotes (modelSide : ModelSide) (notes : String) (σ : KVState) :
    Bool × KVState :=
  (true, writeModelData σ modelSide
    { readModelData σ modelSide with personalNotes := notes })

/-- Model of the getPersonalNotes handler. -/
def getPersonalNotes (modelSide : ModelSide) (σ : KVState) : String :=
  (readModelData σ modelSide).personalNotes

/-! ## JavaScript numbers

The handlers compare the coerced numeric argument with integer bounds and
test Number.isFinite; for those operations the IEEE doubles of the source
embed faithfully into the rationals, so a JS number is modelled as NaN, an
infinity, or a finite rational. -/

/-- A JavaScript number as far as the handlers observe it. -/
inductive JsNum
  | nan
  | posInf
  | negInf
  | finite (q : ℚ)
deriving DecidableEq, Repr

/-- Number.isFinite. -/
def JsNum.isFinite : JsNum → Bool
  | .finite _ => true
  | _ => false

/-- Model of sanitizePositiveInt: Number(value) is the JsNum argument
(null and undefined coerce to 0 and NaN respectively, both of which fall
back); non-finite falls back, otherwise the value is floored and values
below min fall back. -/
def sanitizePositiveInt (value : JsNum) (fallback : Int) (min : Int := 1) : Int :=
  match value with
  | .finite q => let floored : Int := ⌊q⌋; if floored < min then fallback else floored
  | _ => fallback

/-! ## The sleep tool handler -/

/-- Result shape of the sleep tool handler. -/
structure SleepToolResult where
  message : String
deriving DecidableEq, Repr

/-- Error text for an out-of-range or non-numeric waiting time. -/
def sleepRangeError : String := "エラー: 待機秒数は1秒以上1800秒未満で指定してください。"

/-- padStart(2, zero) on a decimal rendering. -/
def padStart2 (s : String) : String :=
  if s.length < 2 then "0" ++ s else s

/-- The elapsed-time message built from a positive finite seconds value:
mm = Math.floor(seconds / 60), ss = Math.floor(seconds % 60); for positive
seconds the JS remainder equals seconds - 60 * floor(seconds / 60). -/
def sleepElapsedMessage (seconds : ℚ) : String :=
  let mm : Int := ⌊seconds / 60⌋
  let ss : Int := ⌊seconds - 60 * (mm : ℚ)⌋
  "このツールを呼び出してから" ++ padStart2 (toString mm) ++ "分"
    ++ padStart2 (toString ss) ++ "秒経過しました。"

/-- Model of sleepToolHandler.  The seconds argument is
Number(args.seconds ?? 0): a missing argument coerces to 0 and a
non-numeric one to NaN, so quantifying over JsNum covers every args value.
The second component records the duration passed to setTimeout (in
seconds), none when no timer was started; returning it as data expresses
that the handler is total and never throws. -/
def sleepToolHandler (seconds : JsNum) : SleepToolResult × Option ℚ :=
  match seconds with
  | .finite q =>
    if q ≤ 0 ∨ 1800 ≤ q then ({ message := sleepRangeError }, none)
    else ({ message := sleepElapsedMessage q }, some q)
  | _ => ({ message := sleepRangeError }, none)

/-! ## The GraphRAG query handler -/

/-- The separator class of the tokenizing split in graphRagQueryHandler:
ideographic comma, fullwidth comma, ideographic full stop, fullwidth full
stop, whitespace, fullwidth solidus, solidus, katakana middle dot, comma,
full stop. -/
def graphRagSeparatorChar (c : Char) : Bool :=
  c = '、' ∨ c = '，' ∨ c = '。' ∨ c = '．' ∨ jsWhitespaceChar c = true ∨
  c = '／' ∨ c = '/' ∨ c = '・' ∨ c = ',' ∨ c = '.'

/-- Accumulator pass splitting a character list into the maximal runs of
non-separator characters. -/
def splitTermsAux : List Char → List Char → List (List Char)
  | [], acc => if acc.isEmpty then [] else [acc.reverse]
  | c :: rest, acc =>
    if graphRagSeparatorChar c then
      if acc.isEmpty then splitTermsAux rest []
      else acc.reverse :: splitTermsAux rest []
    else splitTermsAux rest (c :: acc)

/-- The rawTerms of graphRagQueryHandler: the query split on runs of
separator characters, each piece trimmed, empty pieces dropped.  Splitting
on a character class yields the maximal separator-free runs plus empty
strings at the borders; the empties are removed by the nonemptiness filter
and the trim is the identity on the runs because every JS whitespace
character is in the separator class, so the split below produces exactly
the surviving terms. -/
def rawTerms (query : String) : List String :=
  (splitTermsAux query.data []).map fun cs => String.mk cs

/-- Set-based deduplication, Array.from(new Set(...)): keeps the first
occurrence of each element, in order. -/
def dedupFirst : List String → List String → List String
  | _, [] => []
  | seen, t :: rest =>
    if t ∈ seen then dedupFirst seen rest
    else t :: dedupFirst (t :: seen) rest

/-- The length property of a JS string counts UTF-16 code units: 1 for
characters below 0x10000 and 2 for the rest. -/
def utf16Length (s : String) : Nat :=
  s.data.foldr (fun c n => (if c.toNat < 0x10000 then 1 else 2) + n) 0

/-- The terms finally searched: rawTerms deduplicated and restricted to
those of length at least 2. -/
def graphRagTerms (query : String) : List String :=
  (dedupFirst [] (rawTerms query)).filter fun t => 2 ≤ utf16Length t

/-- A node record as returned by the graph store driver. -/
structure Neo4jNodeRec where
  elementId : String
  id : String
  type : String
  speaker : String
  text : String
deriving DecidableEq, Repr

/-- A relationship record as returned by the graph store driver; the
element ids of its endpoints, its type and its own element id (the
fallback chain of the renderer). -/
structure Neo4jRelRec where
  startElementId : String
  endElementId : String
  relType : String
  relElementId : String
deriving DecidableEq, Repr

/-- Oracle for the two parametrized queries the handler may run against the
graph store: the seed search (terms, maxSeeds) and the subgraph expansion
(seedIds, maxHops), the latter returning driver records each carrying a
node list and a relationship list. -/
structure GraphStore where
  seedSearch : List String → Int → List Neo4jNodeRec
  expand : List String → Int → List (List Neo4jNodeRec × List Neo4jRelRec)

/-- The queries graphRagQueryHandler issues, in order, plus the condensing
vendor call; C8 asserts the early-exit path issues none of them. -/
inductive StoreEvent
  | seedQuery
  | expandQuery
  | condenseCall
deriving DecidableEq, Repr

/-- Result shape of graph_rag_query. -/
structure GraphRagQueryResult where
  context : String
deriving DecidableEq, Repr

/-- The fixed context string for a query with no usable search terms. -/
def graphRagNoTermsContext (query : String) : String :=
  "GraphRAG: クエリ「" ++ query ++ "」から有効な検索語を抽出できませんでした。"

/-- The context string when the seed search matches nothing. -/
def graphRagNoSeedsContext (queryText : String) : String :=
  "知識グラフ内に、クエリ「" ++ queryText ++ "」に明確に関連するノードは見つかりませんでした。"

/-- The context string when the expansion returns no records. -/
def graphRagNoSubgraphContext (maxHops : Int) : String :=
  "ノードは見つかりましたが、半径 " ++ toString maxHops ++ " ホップ以内に広がるサブグラフは取得できませんでした。"

/-- Insertion into the nodeMap: iteration order of a JS Map is insertion
order, blank ids are skipped and the first record for an id wins. -/
def insertNode (acc : List Neo4jNodeRec) (n : Neo4jNodeRec) : List Neo4jNodeRec :=
  if n.id = "" then acc
  else if acc.any fun m => m.id = n.id then acc
  else acc ++ [n]

/-- The elementId-to-node-id map: entries added when a node is first
inserted and its elementId is nonblank; Map.set overwrites, so lookups see
the newest entry first. -/
def insertElementId (emap : List (String × String)) (n : Neo4jNodeRec) :
    List (String × String) :=
  if n.elementId = "" then emap else (n.elementId, n.id) :: emap

/-- Folds the expansion records into the node map, the elementId map and
the relationship list, in record order. -/
def collectSubgraph (records : List (List Neo4jNodeRec × List Neo4jRelRec)) :
    List Neo4jNodeRec × List (String × String) × List Neo4jRelRec :=
  records.foldl
    (fun st rec =>
      let (nodeMap, emap, rels) := st
      let (nodeMap, emap) := rec.1.foldl
        (fun st n =>
          let (nodeMap, emap) := st
          if n.id = "" then (nodeMap, emap)
          else if nodeMap.any fun m => m.id = n.id then (nodeMap, emap)
          else (nodeMap ++ [n], insertElementId emap n))
        (nodeMap, emap)
      (nodeMap, emap, rels ++ rec.2))
    ([], [], [])

/-- Rendering of one node line of the subgraph listing. -/
def renderNodeLine (n : Neo4jNodeRec) : String :=
  let type := if n.type = "" then "unknown" else n.type
  let speaker := if n.speaker = "" then "-" else n.speaker
  "- [" ++ n.id ++ "] type=" ++ type ++ ", speaker=" ++ speaker ++ ": " ++ n.text

/-- Rendering of one relationship line, resolving endpoint element ids
through the map with the element id itself as fallback. -/
def renderRelLine (emap : List (String × String)) (r : Neo4jRelRec) : String :=
  let startId := match emap.find? fun p => p.1 = r.startElementId with
    | some p => p.2
    | none => r.startElementId
  let endId := match emap.find? fun p => p.1 = r.endElementId with
    | some p => p.2
    | none => r.endElementId
  let relType := if r.relType = "" then
      (if r.relElementId = "" then "REL" else r.relElementId)
    else r.relType
  "- (" ++ startId ++ ") -[:" ++ relType ++ "]-> (" ++ endId ++ ")"

/-- The deterministic textual listing of the retrieved subgraph. -/
def renderGraphText (queryText : String)
    (records : List (List Neo4jNodeRec × List Neo4jRelRec)) : String :=
  let (nodeMap, emap, rels) := collectSubgraph records
  let lines :=
    ["GraphRAG: クエリ「" ++ queryText ++ "」に関連するサブグラフ要約:", "", "【ノード】"]
      ++ nodeMap.map renderNodeLine
      ++ ["", "【関係】"]
      ++ rels.map (renderRelLine emap)
  String.intercalate "\n" lines

/-- Model of graphRagQueryHandler.  The condense oracle stands for the
summarization vendor call: none models a thrown request or an undefined
output_text (both fall back to the raw rendering), some t a returned text
that is used when it trims nonempty.  The second component lists the
graph-store queries and the condensing call actually issued. -/
def graphRagQueryHandler (store : GraphStore) (condense : String → Option String)
    (query : Option String) (max_hops max_seeds : JsNum) :
    GraphRagQueryResult × List StoreEvent :=
  let maxHops := sanitizePositiveInt max_hops 2
  let maxSeeds := sanitizePositiveInt max_seeds 5
  let q := query.getD ""
  let queryText := jsTrim q
  let terms := graphRagTerms q
  if terms.length < 1 then
    ({ context := graphRagNoTermsContext q }, [])
  else
    let seeds := store.seedSearch terms maxSeeds
    if seeds.length = 0 then
      ({ context := graphRagNoSeedsContext queryText }, [.seedQuery])
    else
      let seedIds := (seeds.map fun n => n.id).filter fun i => i ≠ ""
      let records := store.expand seedIds maxHops
      if records.length = 0 then
        ({ context := graphRagNoSubgraphContext maxHops }, [.seedQuery, .expandQuery])
      else
        let graphText := renderGraphText queryText records
        let events := [StoreEvent.seedQuery, .expandQuery, .condenseCall]
        match condense graphText with
        | none => ({ context := graphText }, events)
        | some t =>
          ({ context := if 0 < (jsTrim t).length then t else graphText }, events)

/-! ## The dialog orchestrator

The orchestrator is modelled as pure state passing over DialogState.  A
trace of the observable events is carried in the state; every event is
stamped with the value of the terminationAccepted flag at the moment it
occurs, which is how the temporal claims about that flag are stated.
Request payloads (the per-vendor msgs arrays), the moderator instruction
strings and the token-usage counters that never feed back into control flow
are not tracked; the size estimates that raise the hush flag are. -/

/-- A conversation message as held in the shared history. -/
structure Message where
  name : ModelSide
  content : String
deriving DecidableEq, Repr

/-- A tool invocation as it reaches the registry.  Registered tools whose
handlers do not touch orchestrator state (graph_rag_query,
graph_rag_focus_node, ask_gemini, get_main_source_codes,
leave_notes_to_devs, list_conversations, get_conversation_summary,
compare_conversation_themes, get_tool_usage_stats, sleep) are the external
constructor; its ok flag says whether the handler returns normally or
throws (the GraphRAG handlers have no catch around their store queries, so
a store error propagates to the turn executor).  A name absent from the
registry is the unknown constructor: findTool throws on it. -/
inductive ToolCall
  | terminate_dialog
  | abort_process
  | set_personal_notes (notes : String)
  | get_personal_notes
  | set_additional_system_instructions (systemInstructions : String)
  | get_additional_system_instructions
  | agree_to_system_instructions_change
  | external (name : String) (ok : Bool)
  | unknown (name : String)
deriving DecidableEq, Repr

/-- Whether findTool resolves the call. -/
def ToolCall.isKnown : ToolCall → Bool
  | .unknown _ => false
  | _ => true

/-- The observable events of a run. -/
inductive EventKind
  | turnStart (side : ModelSide)
  | vendorCall (side : ModelSide)
  | toolDispatch (side : ModelSide) (tool : ToolCall)
  | logRecord (label : String)
  | postprocVendorCall
  | neo4jWrite
  | sleepStep
  | htmlRender
deriving DecidableEq, Repr

/-- An event stamped with the terminationAccepted flag at the moment it
occurred. -/
structure Event where
  kind : EventKind
  termAccepted : Bool
deriving DecidableEq, Repr

/-- The display names of the two sides (the default configuration of the
source; the log labels below are built from them). -/
def openaiName : String := "GPT 5.1"

/-- The anthropic display name. -/
def anthropicName : String := "Claude Haiku 4.5"

/-- Display name by side. -/
def sideName : ModelSide → String
  | .openai => openaiName
  | .anthropic => anthropicName

/-- The in-memory state of one PhilosophyDialog instance, together with the
event trace.  The openaiTokens and anthropicTokens size fields and the API
usage counters are omitted: they are written but never read back into
control flow (the anthropic hush comparison uses the fresh usage numbers,
not the stored field). -/
structure DialogState where
  messages : List Message
  startingSide : ModelSide
  started : Bool
  hushFinish : Bool
  finishTurnCount : Nat
  terminationAccepted : Bool
  shouldExit : Bool
  openaiFailureCount : Nat
  anthropicFailureCount : Nat
  kv : KVState
  trace : List Event

/-- Appends one event, stamped with the current flag. -/
def emit (s : DialogState) (k : EventKind) : DialogState :=
  { s with trace := s.trace ++ [{ kind := k, termAccepted := s.terminationAccepted }] }

/-- Appends one log record (only the label is tracked). -/
def logM (s : DialogState) (label : String) : DialogState :=
  emit s (.logRecord label)

/-- Appends one message to the shared history. -/
def pushMsg (s : DialogState) (side : ModelSide) (content : String) : DialogState :=
  { s with messages := s.messages ++ [{ name := side, content }] }

/-- Scripted environment: the responses the two vendor endpoints return, in
order, the size estimator of the openai side, and the outcomes of the three
postprocessing steps of the finish sequence. -/
structure Env where
  est : List Message → Nat
  summarizeOk : Bool
  extractOk : Bool
  neo4jOk : Bool

/-- Content parts of an openai message output item; none in output_text
models a text field that is not a string. -/
inductive OpenAIContentPart
  | output_text (text : Option String)
  | otherPart
deriving DecidableEq, Repr

/-- Output items of an openai response. -/
inductive OpenAIOutputItem
  | function_call (tool : ToolCall)
  | message (content : List OpenAIContentPart)
  | otherItem
deriving DecidableEq, Repr

/-- One scripted openai response; usageDetails says whether
usage.output_tokens_details is present (the first response of a turn then
logs a thinking record). -/
structure OpenAIResponse where
  output : List OpenAIOutputItem
  usageDetails : Bool
deriving DecidableEq, Repr

/-- Content blocks of an anthropic response. -/
inductive AnthropicBlock
  | thinking (text : String)
  | text (t : String)
  | tool_use (tool : ToolCall)
  | otherBlock
deriving DecidableEq, Repr

/-- One scripted anthropic response; usage is the
(input_tokens, output_tokens) pair when present. -/
structure AnthropicResponse where
  content : List AnthropicBlock
  usage : Option (Nat × Nat)
deriving DecidableEq, Repr

/-- The two vendor scripts still to be consumed. -/
structure Scripts where
  openai : List OpenAIResponse
  anthropic : List AnthropicResponse

/-- Control flow of a try body: normal value, a thrown exception (caught by
the executor's catch), or an early return on the shouldExit checks. -/
inductive Flow (α : Type)
  | ok (a : α)
  | thrown
  | early
deriving DecidableEq, Repr

/-- External name of a tool call, as matched by findTool. -/
def ToolCall.tname : ToolCall → String
  | .terminate_dialog => "terminate_dialog"
  | .abort_process => "abort_process"
  | .set_personal_notes _ => "set_personal_notes"
  | .get_personal_notes => "get_personal_notes"
  | .set_additional_system_instructions _ => "set_additional_system_instructions"
  | .get_additional_system_instructions => "get_additional_system_instructions"
  | .agree_to_system_instructions_change => "agree_to_system_instructions_change"
  | .external n _ => n
  | .unknown n => n

/-- Dispatch of a resolved tool call into its handler.  The dispatch event
is emitted at the handler invocation; the handler for terminate_dialog sets
terminationAccepted, the one for abort_process sets shouldExit and throws,
the store handlers act on the key-value state, failing external handlers
throw.  Handler results only flow into logs and request payloads, which are
not tracked. -/
def dispatchTool (side : ModelSide) (c : ToolCall) (s : DialogState) :
    Flow Unit × DialogState :=
  let s := emit s (.toolDispatch side c)
  match c with
  | .terminate_dialog => (.ok (), { s with terminationAccepted := true })
  | .abort_process => (.thrown, { s with shouldExit := true })
  | .set_personal_notes notes =>
      (.ok (), { s with kv := (setPersonalNotes side notes s.kv).2 })
  | .get_personal_notes => (.ok (), s)
  | .set_additional_system_instructions sys =>
      (.ok (), { s with kv := (setAdditionalSystemInstructions side sys "" s.kv).2 })
  | .get_additional_system_instructions => (.ok (), s)
  | .agree_to_system_instructions_change =>
      (.ok (), { s with kv := (agreeToSystemInstructionsChange side s.kv).2 })
  | .external _ ok => (if ok then .ok () else .thrown, s)
  | .unknown _ => (.thrown, s)

/-- One openai function call: findTool (throws on an unknown name before
anything is logged), the shouldExit check, the call log, another check, the
handler dispatch, another check, the result log. -/
def processOpenAICall (s : DialogState) (c : ToolCall) : Flow Unit × DialogState :=
  if c.isKnown = false then (.thrown, s)
  else if s.shouldExit then (.early, s)
  else
    let s := logM s (openaiName ++ " (tool call)")
    if s.shouldExit then (.early, s)
    else
      match dispatchTool .openai c s with
      | (.ok _, s) =>
        if s.shouldExit then (.early, s)
        else (.ok (), logM s (openaiName ++ " (tool result)"))
      | (f, s) => (f, s)

/-- The for loop over the function calls of one openai response. -/
def processOpenAICalls (s : DialogState) : List ToolCall → Flow Unit × DialogState
  | [] => (.ok (), s)
  | c :: rest =>
    match processOpenAICall s c with
    | (.ok _, s) => processOpenAICalls s rest
    | r => r

/-- The function_call items of an output array. -/
def functionCallsOf (items : List OpenAIOutputItem) : List ToolCall :=
  items.filterMap fun i =>
    match i with
    | .function_call c => some c
    | _ => none

/-- findLastOpenAIOutput specialised to message items: the content of the
last message-type item, scanning from the end. -/
def findLastOutputMessage : List OpenAIOutputItem → Option (List OpenAIContentPart)
  | [] => none
  | i :: rest =>
    match findLastOutputMessage rest with
    | some m => some m
    | none =>
      match i with
      | .message content => some content
      | _ => none

/-- findLastOpenAIMessageContent: the last output_text part, scanning from
the end. -/
def findLastMessageContent : List OpenAIContentPart → Option (Option String)
  | [] => none
  | p :: rest =>
    match findLastMessageContent rest with
    | some t => some t
    | none =>
      match p with
      | .output_text t => some t
      | _ => none

/-- A vendor request on the openai endpoint: the request event is emitted,
then the next scripted response is consumed; an exhausted script models a
failing request (none, the await throws). -/
def vendorCallO (s : DialogState) (script : List OpenAIResponse) :
    Option OpenAIResponse × DialogState × List OpenAIResponse :=
  let s := emit s (.vendorCall .openai)
  match script with
  | [] => (none, s, [])
  | r :: rest => (some r, s, rest)

/-- The tail of the fixed placeholder message the err helper appends after
the display name. -/
def stillThinkingSuffix : String :=
  "です。しばらく考え中です。お待ちください。（このメッセージはAPIの制限などの問題が発生したときにも出ることがあります、笑）"

/-- The openai catch block: when the turn did not exit early, the failure
counter is incremented and the fixed placeholder message is substituted
(the err helper of the source). -/
def openaiCatch (s : DialogState) : DialogState :=
  if s.shouldExit then s
  else
    let s := { s with openaiFailureCount := s.openaiFailureCount + 1 }
    pushMsg s .openai (openaiName ++ stillThinkingSuffix)

/-- The anthropic catch block. -/
def anthropicCatch (s : DialogState) : DialogState :=
  if s.shouldExit then s
  else
    let s := { s with anthropicFailureCount := s.anthropicFailureCount + 1 }
    pushMsg s .anthropic (anthropicName ++ stillThinkingSuffix)

/-- The response-processing while loop of the openai turn: an empty output
array throws; function calls are processed and a follow-up request issued;
otherwise the last message text (empty when absent or non-string) is
accepted as the turn's utterance. -/
def openaiLoop : List OpenAIResponse → OpenAIResponse → DialogState →
    Flow Unit × DialogState × List OpenAIResponse
  | script, cur, s =>
    if s.shouldExit then (.early, s, script)
    else if cur.output.isEmpty then (.thrown, s, script)
    else
      let calls := functionCallsOf cur.output
      if calls.isEmpty = false then
        match processOpenAICalls s calls with
        | (.ok _, s) =>
          match script with
          | [] => (.thrown, emit s (.vendorCall .openai), [])
          | nxt :: rest =>
            let s := emit s (.vendorCall .openai)
            if s.shouldExit then (.early, s, rest)
            else openaiLoop rest nxt s
        | (f, s) => (f, s, script)
      else
        if s.shouldExit then (.early, s, script)
        else
          match findLastOutputMessage cur.output with
          | none => (.ok (), pushMsg s .openai "", script)
          | some content =>
            let text := match findLastMessageContent content with
              | some (some t) => t
              | _ => ""
            (.ok (), pushMsg s .openai text, script)

/-- 0.8 times the GPT_5_1_MAX token ceiling. -/
def openaiHushCeiling : Nat := 320000

/-- 0.8 times the CLAUDE_HAIKU_4_5_MAX token ceiling. -/
def anthropicHushCeiling : Nat := 160000

/-- The openai turn executor.  The size estimate (tokenCounter plus 500)
raises the hush flag when above 80 percent of the ceiling; a moderator
wrap-up message is then appended to the request payload (untracked).  The
initial request is issued, the usage-details thinking log written when
present, then the response loop runs; a thrown exception lands in the
catch. -/
def openaiTurn (env : Env) (script : List OpenAIResponse) (s : DialogState) :
    DialogState × List OpenAIResponse :=
  if s.shouldExit then (s, script)
  else
  let s := emit s (.turnStart .openai)
  if s.shouldExit then (s, script)
  else
  let s := if openaiHushCeiling < env.est s.messages + 500 then
      { s with hushFinish := true } else s
  if s.shouldExit then (s, script)
  else
    match vendorCallO s script with
    | (none, s, rest) => (openaiCatch s, rest)
    | (some first, s, rest) =>
      if s.shouldExit then (s, rest)
      else
        let s := if first.usageDetails then logM s (openaiName ++ " (thinking)") else s
        if s.shouldExit then (s, rest)
        else
          match openaiLoop rest first s with
          | (.ok _, s, rest) => (s, rest)
          | (.early, s, rest) => (s, rest)
          | (.thrown, s, rest) => (openaiCatch s, rest)

/-- A vendor request on the anthropic endpoint. -/
def vendorCallA (s : DialogState) (script : List AnthropicResponse) :
    Option AnthropicResponse × DialogState × List AnthropicResponse :=
  let s := emit s (.vendorCall .anthropic)
  match script with
  | [] => (none, s, [])
  | r :: rest => (some r, s, rest)

/-- Logs the thinking blocks of an anthropic response one by one, with the
shouldExit check after each log. -/
def logThinking (s : DialogState) : List AnthropicBlock → Flow Unit × DialogState
  | [] => (.ok (), s)
  | b :: rest =>
    match b with
    | .thinking _ =>
      let s := logM s (anthropicName ++ " (thinking)")
      if s.shouldExit then (.early, s) else logThinking s rest
    | _ => logThinking s rest

/-- One anthropic tool use: findTool, the call log, a check, the dispatch,
a check, the result log (the source has no check between findTool and the
call log). -/
def processAnthropicCall (s : DialogState) (c : ToolCall) : Flow Unit × DialogState :=
  if c.isKnown = false then (.thrown, s)
  else
    let s := logM s (anthropicName ++ " (tool call)")
    if s.shouldExit then (.early, s)
    else
      match dispatchTool .anthropic c s with
      | (.ok _, s) =>
        if s.shouldExit then (.early, s)
        else (.ok (), logM s (anthropicName ++ " (tool result)"))
      | (f, s) => (f, s)

/-- The for loop over the tool_use blocks of one anthropic response. -/
def processAnthropicCalls (s : DialogState) : List ToolCall → Flow Unit × DialogState
  | [] => (.ok (), s)
  | c :: rest =>
    match processAnthropicCall s c with
    | (.ok _, s) => processAnthropicCalls s rest
    | r => r

/-- Whether a block is a thinking block. -/
def AnthropicBlock.isThinking : AnthropicBlock → Bool
  | .thinking _ => true
  | _ => false

/-- The tool_use blocks among the assistant blocks. -/
def toolUsesOf (blocks : List AnthropicBlock) : List ToolCall :=
  blocks.filterMap fun b =>
    match b with
    | .tool_use c => some c
    | _ => none

/-- The last text block among the assistant blocks (reverse().find). -/
def lastTextBlock : List AnthropicBlock → Option String
  | [] => none
  | b :: rest =>
    match lastTextBlock rest with
    | some t => some t
    | none =>
      match b with
      | .text t => some t
      | _ => none

/-- The while loop of the anthropic turn: request, thinking logs, the
usage-based hush update (absent usage also raises hush), then either the
silence path (no non-thinking blocks), the text path (no tool uses), or the
tool-use path followed by another iteration. -/
def anthropicLoop : List AnthropicResponse → DialogState →
    Flow Unit × DialogState × List AnthropicResponse
  | script, s =>
    if s.shouldExit then (.early, s, script)
    else
      match script with
      | [] => (.thrown, emit s (.vendorCall .anthropic), [])
      | msg :: rest =>
        let s := emit s (.vendorCall .anthropic)
        if s.shouldExit then (.early, s, rest)
        else
          match logThinking s msg.content with
          | (.early, s) => (.early, s, rest)
          | (_, s) =>
            let s := match msg.usage with
              | some u =>
                if anthropicHushCeiling < u.1 + u.2 then { s with hushFinish := true }
                else s
              | none => { s with hushFinish := true }
            if s.shouldExit then (.early, s, rest)
            else
              let assistantBlocks := msg.content.filter fun b => b.isThinking = false
              if assistantBlocks.isEmpty then (.ok (), pushMsg s .anthropic "", rest)
              else
                if s.shouldExit then (.early, s, rest)
                else
                  let toolUses := toolUsesOf assistantBlocks
                  if toolUses.isEmpty then
                    let text := (lastTextBlock assistantBlocks).getD ""
                    (.ok (), pushMsg s .anthropic text, rest)
                  else
                    match processAnthropicCalls s toolUses with
                    | (.ok _, s) =>
                      if s.shouldExit then (.early, s, rest)
                      else anthropicLoop rest s
                    | (f, s) => (f, s, rest)

/-- The anthropic turn executor. -/
def anthropicTurn (script : List AnthropicResponse) (s : DialogState) :
    DialogState × List AnthropicResponse :=
  if s.shouldExit then (s, script)
  else
  let s := emit s (.turnStart .anthropic)
  if s.shouldExit then (s, script)
  else
    match anthropicLoop script s with
    | (.ok _, s, rest) => (s, rest)
    | (.early, s, rest) => (s, rest)
    | (.thrown, s, rest) => (anthropicCatch s, rest)

/-- The tail of the finish sequence: the terminal EOF record followed by
the transcript rendering. -/
def finishEOF (s : DialogState) : DialogState :=
  emit (logM s "EOF") .htmlRender

/-- The finish sequence: guarded by shouldExit (set immediately, making the
sequence idempotent), it logs the closing moderator remark, then tries
summarization, graph extraction and the graph write, logging each stage or
a POSTPROC_ERROR on the first failure, and always ends with the EOF record
and the rendering. -/
def finish (env : Env) (s : DialogState) : DialogState :=
  if s.shouldExit then s
  else
  let s := { s with shouldExit := true }
  let s := logM s "司会"
  let s := emit s .postprocVendorCall
  if env.summarizeOk = false then finishEOF (logM s "POSTPROC_ERROR")
  else
  let s := logM s "POSTPROC_SUMMARY"
  let s := emit s .postprocVendorCall
  if env.extractOk = false then finishEOF (logM s "POSTPROC_ERROR")
  else
  let s := logM s "POSTPROC_GRAPH"
  let s := emit s .neo4jWrite
  if env.neo4jOk = false then finishEOF (logM s "POSTPROC_ERROR")
  else finishEOF (logM s "POSTPROC_NEO4J")

/-- The termination predicate of the run loop. -/
def shouldFinish (s : DialogState) : Bool :=
  decide (2 ≤ s.finishTurnCount) || s.terminationAccepted

/-- The hush-gated finishTurnCount checkpoint of the run loop. -/
def bumpIfHush (s : DialogState) : DialogState :=
  if s.hushFinish then { s with finishTurnCount := s.finishTurnCount + 1 } else s

/-- Last message content, messages[messages.length - 1].content. -/
def lastContent (s : DialogState) : String :=
  match s.messages.getLast? with
  | some m => m.content
  | none => ""

/-- Outcome of one phase of the loop body: either the run returns with this
state, or the loop proceeds. -/
inductive PhaseRes
  | ret (s : DialogState)
  | cont (s : DialogState)

/-- The state carried by a phase outcome. -/
def PhaseRes.state : PhaseRes → DialogState
  | .ret s => s
  | .cont s => s

/-- Whether a phase outcome lets the loop proceed. -/
def PhaseRes.isCont : PhaseRes → Bool
  | .ret _ => false
  | .cont _ => true

/-- The openai half of the loop body: the turn, the first hush checkpoint,
the utterance log, the finish check, the pacing sleep, the second hush
checkpoint. -/
def openaiPhase (env : Env) (sc : Scripts) (s : DialogState) : PhaseRes × Scripts :=
  let s0 := { s with started := true }
  let r := openaiTurn env sc.openai s0
  let sc1 := { sc with openai := r.2 }
  let s1 := r.1
  if s1.shouldExit then (.ret s1, sc1)
  else
  let s2 := logM (bumpIfHush s1) openaiName
  if shouldFinish s2 then (.ret (finish env s2), sc1)
  else if s2.shouldExit then (.ret s2, sc1)
  else
  let s3 := emit s2 .sleepStep
  if s3.shouldExit then (.ret s3, sc1)
  else (.cont (bumpIfHush s3), sc1)

/-- The anthropic half of the loop body: the turn, the utterance log, the
finish check, the pacing sleep. -/
def anthropicPhase (env : Env) (sc : Scripts) (s : DialogState) : PhaseRes × Scripts :=
  let s0 := { s with started := true }
  let r := anthropicTurn sc.anthropic s0
  let sc1 := { sc with anthropic := r.2 }
  let s1 := r.1
  if s1.shouldExit then (.ret s1, sc1)
  else
  let s2 := logM s1 anthropicName
  if shouldFinish s2 then (.ret (finish env s2), sc1)
  else if s2.shouldExit then (.ret s2, sc1)
  else
  let s3 := emit s2 .sleepStep
  if s3.shouldExit then (.ret s3, sc1)
  else (.cont s3, sc1)

/-- The while loop of run: the openai half runs except on iteration 0 when
the anthropic side starts; fuel bounds the number of iterations (the source
loop can iterate indefinitely on repeated vendor failures). -/
def runLoop (env : Env) : Nat → Scripts → DialogState → DialogState
  | 0, _, s => s
  | fuel + 1, sc, s =>
    if s.shouldExit then s
    else
      if s.started || s.startingSide = .anthropic then
        match openaiPhase env sc s with
        | (.ret s, _) => s
        | (.cont s, sc) =>
          match anthropicPhase env sc s with
          | (.ret s, _) => s
          | (.cont s, sc) => runLoop env fuel sc s
      else
        match anthropicPhase env sc s with
        | (.ret s, _) => s
        | (.cont s, sc) => runLoop env fuel sc s

/-- The fixed self-introduction of the starting side. -/
def selfIntroduction (startingSide : ModelSide) : String :=
  "私は " ++ sideName startingSide
    ++ " です。よろしくお願いします。今日は哲学に関して有意義な話ができると幸いです。"

/-- The label of the initial-prompt log record. -/
def initialPromptLabel (startingSide : ModelSide) : String :=
  sideName startingSide ++ " (initial prompt)"

/-- The initial state built by the constructor and initializeConversation:
the starting side's fixed self-introduction seeds the history and is
logged. -/
def initialState (startingSide : ModelSide) (kv : KVState) : DialogState :=
  { messages := [{ name := startingSide, content := selfIntroduction startingSide }],
    startingSide := startingSide,
    started := false,
    hushFinish := false,
    finishTurnCount := 0,
    terminationAccepted := false,
    shouldExit := false,
    openaiFailureCount := 0,
    anthropicFailureCount := 0,
    kv := kv,
    trace := [{ kind := .logRecord (initialPromptLabel startingSide),
                termAccepted := false }] }

/-- A whole run: the initial state fed into the loop. -/
def runModel (env : Env) (fuel : Nat) (sc : Scripts) (startingSide : ModelSide)
    (kv : KVState) : DialogState :=
  runLoop env fuel sc (initialState startingSide kv)

/-! ## Trace predicates and the run invariant -/

/-- Whether an event kind is a log record. -/
def EventKind.isLog : EventKind → Bool
  | .logRecord _ => true
  | _ => false

/-- Whether an event kind is the terminal EOF log record. -/
def EventKind.isEOF : EventKind → Bool
  | .logRecord l => l = "EOF"
  | _ => false

/-- The log labels written only by the finish sequence's success chain and
its terminal record (the labels claim C6 forbids in an aborted run). -/
def postprocEOFLabels : List String :=
  ["POSTPROC_SUMMARY", "POSTPROC_GRAPH", "POSTPROC_NEO4J", "EOF"]

/-- Whether an event kind is one of the postprocessing log records or the
EOF record. -/
def EventKind.isPostproc : EventKind → Bool
  | .logRecord l => postprocEOFLabels.contains l
  | _ => false

/-- Whether an event kind marks the start of a turn executor. -/
def EventKind.isTurnBegin : EventKind → Bool
  | .turnStart _ => true
  | _ => false

/-- Whether an event kind is a dispatch of the abort_process handler. -/
def EventKind.isAbortDispatch : EventKind → Bool
  | .toolDispatch _ .abort_process => true
  | _ => false

/-- The terminationAccepted stamps are monotone along the trace: after the
first true stamp every stamp is true. -/
def flagMonoB : List Event → Bool
  | [] => true
  | e :: rest => bif e.termAccepted then rest.all (fun x => x.termAccepted) else flagMonoB rest

/-- No log record occurs strictly after an EOF log record. -/
def okAfterEOFB : List Event → Bool
  | [] => true
  | e :: rest =>
    bif e.kind.isEOF then rest.all (fun x => !x.kind.isLog) else okAfterEOFB rest

/-- Whether some event of the trace satisfies the kind predicate. -/
def hasEvK (p : EventKind → Bool) (t : List Event) : Bool :=
  t.any fun e => p e.kind

/-- The run invariant: trace stamps are monotone and agree with the current
flag, turn starts are stamped false, no log follows an EOF record, and a
postprocessing record or an abort dispatch in the trace forces the
shouldExit flag, an abort moreover excluding every postprocessing
record. -/
structure Inv (s : DialogState) : Prop where
  mono : flagMonoB s.trace = true
  flagCur : s.terminationAccepted = false → s.trace.all (fun e => !e.termAccepted) = true
  ts : s.trace.all (fun e => !(e.kind.isTurnBegin && e.termAccepted)) = true
  okEOF : okAfterEOFB s.trace = true
  postExit : hasEvK EventKind.isPostproc s.trace = true → s.shouldExit = true
  abortNoPost : hasEvK EventKind.isAbortDispatch s.trace = true →
    s.shouldExit = true ∧ hasEvK EventKind.isPostproc s.trace = false

/-- The state components a turn executor leaves alone, and the monotone
flags: the finish-turn counter is untouched, started and the starting side
are stable, and shouldExit, terminationAccepted and hushFinish are never
reset. -/
def Frame (s s2 : DialogState) : Prop :=
  s2.finishTurnCount = s.finishTurnCount ∧
  s2.started = s.started ∧
  s2.startingSide = s.startingSide ∧
  (s.shouldExit = true → s2.shouldExit = true) ∧
  (s.terminationAccepted = true → s2.terminationAccepted = true) ∧
  (s.hushFinish = true → s2.hushFinish = true)

/-- The other dialog side. -/
def ModelSide.other : ModelSide → ModelSide
  | .openai => .anthropic
  | .anthropic => .openai

/-- Whether an event kind is a request to a vendor API or a tool dispatch
(the activities claim C3 declares impossible after terminationAccepted). -/
def EventKind.isVendorOrDispatch : EventKind → Bool
  | .vendorCall _ => true
  | .toolDispatch _ _ => true
  | .postprocVendorCall => true
  | _ => false

/-! ## Concrete fixtures for the claim instances -/

/-- An empty key-value store: blank participant records, no pending file. -/
def kv0 : KVState :=
  { openaiData := { personalNotes := "", additionalSystemInstructions := "" },
    anthropicData := { personalNotes := "", additionalSystemInstructions := "" },
    pending := none }

/-- A key-value store with a proposal pending from the openai side. -/
def kvPending : KVState :=
  { kv0 with pending := some { instructions := "X", requestedBy := .openai,
                               createdAt := "t" } }

/-- A benign environment: zero size estimate, all postprocessing steps
succeed. -/
def env0 : Env :=
  { est := fun _ => 0, summarizeOk := true, extractOk := true, neo4jOk := true }

/-- Exhausted vendor scripts. -/
def emptyScripts : Scripts := { openai := [], anthropic := [] }

/-- An openai response whose output array is empty. -/
def emptyOpenAIResponse : OpenAIResponse := { output := [], usageDetails := false }

/-- An anthropic response with no content blocks and harmless usage. -/
def silentAnthropicResponse : AnthropicResponse := { content := [], usage := some (0, 0) }

/-- An openai script whose single response accepts the termination and then
utters a farewell. -/
def scTerm : Scripts :=
  { openai := [{ output := [.function_call .terminate_dialog,
                            .message [.output_text (some "bye")]],
                 usageDetails := false }],
    anthropic := [] }

/-- An openai script whose single response calls abort_process. -/
def scAbort : Scripts :=
  { openai := [{ output := [.function_call .abort_process], usageDetails := false }],
    anthropic := [] }

/-- A graph store with no contents. -/
def store0 : GraphStore := { seedSearch := fun _ _ => [], expand := fun _ _ => [] }

/-- An EOF record is a postprocessing record. -/
lemma isEOF_isPostproc {k : EventKind} (h : k.isEOF = true) : k.isPostproc = true := by
  cases k <;> simp_all [EventKind.isEOF, EventKind.isPostproc, postprocEOFLabels]

/-- An EOF record is a log record. -/
lemma isEOF_isLog {k : EventKind} (h : k.isEOF = true) : k.isLog = true := by
  cases k <;> simp_all [EventKind.isEOF, EventKind.isLog]

/-- hasEvK over an appended singleton. -/
lemma hasEvK_append_one (p : EventKind → Bool) (t : List Event) (e : Event) :
    hasEvK p (t ++ [e]) = (hasEvK p t || p e.kind) := by
  simp [hasEvK]

/-- flagMonoB survives appending one event whose stamp is true whenever any
earlier stamp is. -/
lemma flagMonoB_append_one {t : List Event} {e : Event} (h : flagMonoB t = true)
    (h2 : e.termAccepted = false → t.all (fun x => !x.termAccepted) = true) :
    flagMonoB (t ++ [e]) = true := by
  induction t with
  | nil => cases he : e.termAccepted <;> simp [flagMonoB, he]
  | cons a t ih =>
    cases ha : a.termAccepted with
    | true =>
      simp only [flagMonoB, ha, cond_true] at h
      cases he : e.termAccepted with
      | true =>
        simp only [List.cons_append, flagMonoB, ha, cond_true, List.all_append]
        simp [h, he]
      | false =>
        exfalso
        have h3 := h2 he
        simp [List.all_cons, ha] at h3
    | false =>
      simp only [flagMonoB, ha, cond_false] at h
      have h2' : e.termAccepted = false → t.all (fun x => !x.termAccepted) = true := by
        intro he
        have h3 := h2 he
        rw [List.all_cons, Bool.and_eq_true] at h3
        exact h3.2
      have hmain := ih h h2'
      simpa only [List.cons_append, flagMonoB, ha, cond_false] using hmain

/-- okAfterEOFB survives appending one event, provided the event is not a
log record or the trace holds no EOF record yet. -/
lemma okAfterEOFB_append_one {t : List Event} {e : Event} (h : okAfterEOFB t = true)
    (h2 : e.kind.isLog = true → hasEvK EventKind.isEOF t = false) :
    okAfterEOFB (t ++ [e]) = true := by
  induction t with
  | nil =>
    cases he : e.kind.isEOF <;> simp [okAfterEOFB, he]
  | cons a t ih =>
    cases ha : a.kind.isEOF with
    | true =>
      simp only [okAfterEOFB, ha, cond_true] at h
      simp only [List.cons_append, okAfterEOFB, ha, cond_true, List.all_append]
      have he : e.kind.isLog = false := by
        cases he : e.kind.isLog with
        | true =>
          exfalso
          have h3 := h2 he
          simp [hasEvK, ha] at h3
        | false => rfl
      simp [h, he]
    | false =>
      simp only [okAfterEOFB, ha, cond_false] at h
      have h2' : e.kind.isLog = true → hasEvK EventKind.isEOF t = false := by
        intro he
        have h3 := h2 he
        simp only [hasEvK, List.any_cons, Bool.or_eq_false_iff] at h3 ⊢
        exact h3.2
      have hmain := ih h h2'
      simpa only [List.cons_append, okAfterEOFB, ha, cond_false] using hmain

/-- okAfterEOFB bounds the number of EOF records by one. -/
lemma okAfterEOFB_countEOF {t : List Event} (h : okAfterEOFB t = true) :
    t.countP (fun e => e.kind.isEOF) ≤ 1 := by
  induction t with
  | nil => simp
  | cons a t ih =>
    cases ha : a.kind.isEOF with
    | true =>
      simp only [okAfterEOFB, ha, cond_true] at h
      have hz : t.countP (fun e => e.kind.isEOF) = 0 := by
        rw [List.countP_eq_zero]
        intro e he
        have h3 := List.all_eq_true.mp h e he
        simp only [Bool.not_eq_true'] at h3
        intro hEOF
        exact absurd (isEOF_isLog (by simpa using hEOF)) (by simp [h3])
      simp [List.countP_cons, ha, hz]
    | false =>
      simp only [okAfterEOFB, ha, cond_false] at h
      have hmain := ih h
      simp only [List.countP_cons, ha, Bool.false_eq_true, if_false]
      omega

/-- Invariance of Inv under state updates that keep the trace and both
flags. -/
lemma Inv.of_eqFields {s s2 : DialogState} (h : Inv s) (ht : s2.trace = s.trace)
    (hterm : s2.terminationAccepted = s.terminationAccepted)
    (hexit : s2.shouldExit = s.shouldExit) : Inv s2 := by
  refine ⟨?_, ?_, ?_, ?_, ?_, ?_⟩ <;> simp only [ht, hterm, hexit]
  · exact h.mono
  · exact h.flagCur
  · exact h.ts
  · exact h.okEOF
  · exact h.postExit
  · exact h.abortNoPost

/-- Inv preservation for every emission except the abort dispatch (whose
shouldExit update is handled with its handler): a turn-start stamp must be
false, a log record needs an EOF-free trace so far, and a postprocessing
record may only be written with shouldExit set and no abort dispatched. -/
lemma Inv.emit_gen {s : DialogState} (h : Inv s) (k : EventKind)
    (h1 : k.isTurnBegin = true → s.terminationAccepted = false)
    (h2 : k.isLog = true → hasEvK EventKind.isEOF s.trace = false)
    (h3 : k.isPostproc = true →
      s.shouldExit = true ∧ hasEvK EventKind.isAbortDispatch s.trace = false)
    (h4 : k.isAbortDispatch = false) : Inv (emit s k) := by
  have htr : (emit s k).trace = s.trace ++ [{ kind := k, termAccepted := s.terminationAccepted }] := rfl
  have hterm : (emit s k).terminationAccepted = s.terminationAccepted := rfl
  have hexit : (emit s k).shouldExit = s.shouldExit := rfl
  refine ⟨?_, ?_, ?_, ?_, ?_, ?_⟩
  · rw [htr]
    exact flagMonoB_append_one h.mono fun he => h.flagCur (by simpa using he)
  · rw [hterm, htr]
    intro hterm0
    simp [List.all_append, h.flagCur hterm0, hterm0]
  · rw [htr]
    simp only [List.all_append, h.ts, List.all_cons, List.all_nil, Bool.and_true, true_and]
    cases hk : k.isTurnBegin with
    | true => simp [h1 hk]
    | false => simp [hk]
  · rw [htr]
    exact okAfterEOFB_append_one h.okEOF h2
  · rw [hexit, htr, hasEvK_append_one]
    intro hor
    rcases Bool.or_eq_true_iff.mp hor with hl | hr
    · exact h.postExit hl
    · exact (h3 hr).1
  · rw [hexit, htr, hasEvK_append_one, hasEvK_append_one, h4]
    simp only [Bool.or_false]
    intro habort
    refine ⟨(h.abortNoPost habort).1, ?_⟩
    simp only [Bool.or_eq_false_iff]
    refine ⟨(h.abortNoPost habort).2, ?_⟩
    cases hk : k.isPostproc with
    | true => exact absurd (h3 hk).2 (by simp [habort])
    | false => rfl

/-- Frame is reflexive. -/
lemma Frame.refl (s : DialogState) : Frame s s :=
  ⟨rfl, rfl, rfl, fun h => h, fun h => h, fun h => h⟩

/-- Frame is transitive. -/
lemma Frame.trans {s1 s2 s3 : DialogState} (h : Frame s1 s2) (h2 : Frame s2 s3) :
    Frame s1 s3 :=
  ⟨h2.1.trans h.1, h2.2.1.trans h.2.1, h2.2.2.1.trans h.2.2.1,
   fun hx => h2.2.2.2.1 (h.2.2.2.1 hx),
   fun hx => h2.2.2.2.2.1 (h.2.2.2.2.1 hx),
   fun hx => h2.2.2.2.2.2 (h.2.2.2.2.2 hx)⟩

/-- Emission keeps the frame. -/
lemma Frame.emit (s : DialogState) (k : EventKind) : Frame s (emit s k) :=
  ⟨rfl, rfl, rfl, fun h => h, fun h => h, fun h => h⟩

/-- Pushing a message keeps the frame. -/
lemma Frame.pushMsg (s : DialogState) (side : ModelSide) (c : String) :
    Frame s (pushMsg s side c) :=
  ⟨rfl, rfl, rfl, fun h => h, fun h => h, fun h => h⟩

/-- Inv is stable under setting terminationAccepted. -/
lemma Inv.withTermTrue {s : DialogState} (h : Inv s) :
    Inv { s with terminationAccepted := true } := by
  refine ⟨h.mono, ?_, h.ts, h.okEOF, h.postExit, h.abortNoPost⟩
  intro hfalse
  cases hfalse

/-- Inv preservation for the dispatch of a non-abort tool. -/
lemma Inv.emit_toolDispatch {s : DialogState} (h : Inv s) (_hs : s.shouldExit = false)
    (side : ModelSide) (c : ToolCall) (hc : c ≠ ToolCall.abort_process) :
    Inv (emit s (.toolDispatch side c)) := by
  apply h.emit_gen
  · intro hx; cases hx
  · intro hx; cases hx
  · intro hx; cases hx
  · cases c <;> simp_all [EventKind.isAbortDispatch]

/-- Inv preservation for events that are neither logs, turn starts nor
dispatches (vendor calls, the pacing sleep, postprocessing requests, the
graph write, the rendering). -/
lemma Inv.emit_plain {s : DialogState} (h : Inv s) (k : EventKind)
    (hk1 : k.isLog = false) (hk2 : k.isTurnBegin = false)
    (hk3 : k.isAbortDispatch = false) : Inv (emit s k) := by
  apply h.emit_gen
  · intro hx; rw [hk2] at hx; cases hx
  · intro hx; rw [hk1] at hx; cases hx
  · intro hx
    exfalso
    cases k <;> simp_all [EventKind.isPostproc, EventKind.isLog]
  · exact hk3

/-- Full specification of a tool dispatch performed while shouldExit is
unset: the invariant is preserved, the frame holds, and shouldExit is set
by exactly the abort handler. -/
lemma dispatchTool_spec (side : ModelSide) (c : ToolCall) (s : DialogState)
    (hInv : Inv s) (hs : s.shouldExit = false) :
    Inv (dispatchTool side c s).2 ∧ Frame s (dispatchTool side c s).2 ∧
    (dispatchTool side c s).2.shouldExit = decide (c = ToolCall.abort_process) := by
  cases c with
  | abort_process =>
    refine ⟨?_, ?_, by simp [dispatchTool, emit]⟩
    · have htr : (dispatchTool side .abort_process s).2.trace
          = s.trace ++ [{ kind := .toolDispatch side .abort_process,
                          termAccepted := s.terminationAccepted }] := rfl
      have hterm : (dispatchTool side .abort_process s).2.terminationAccepted
          = s.terminationAccepted := rfl
      have hexit : (dispatchTool side .abort_process s).2.shouldExit = true := rfl
      have hNoPost : hasEvK EventKind.isPostproc s.trace = false := by
        cases hx : hasEvK EventKind.isPostproc s.trace with
        | true => rw [hInv.postExit hx] at hs; cases hs
        | false => rfl
      refine ⟨?_, ?_, ?_, ?_, ?_, ?_⟩
      · rw [htr]
        exact flagMonoB_append_one hInv.mono fun he => hInv.flagCur (by simpa using he)
      · rw [hterm, htr]
        intro hterm0
        simp [List.all_append, hInv.flagCur hterm0, hterm0]
      · rw [htr, List.all_append, hInv.ts, Bool.true_and]
        simp [EventKind.isTurnBegin]
      · rw [htr]
        exact okAfterEOFB_append_one hInv.okEOF (by intro hx; cases hx)
      · intro _; exact hexit
      · intro _
        refine ⟨hexit, ?_⟩
        rw [htr, hasEvK_append_one, hNoPost]
        simp [EventKind.isPostproc, postprocEOFLabels]
    · exact ⟨rfl, rfl, rfl, fun _ => rfl, fun h => h, fun h => h⟩
  | terminate_dialog =>
    refine ⟨(hInv.emit_toolDispatch hs side _ (by intro hx; cases hx)).withTermTrue,
      ⟨rfl, rfl, rfl, fun h => h, fun _ => rfl, fun h => h⟩, by simp [dispatchTool, emit, hs]⟩
  | set_personal_notes notes =>
    exact ⟨(hInv.emit_toolDispatch hs side _ (by intro hx; cases hx)).of_eqFields rfl rfl rfl,
      ⟨rfl, rfl, rfl, fun h => h, fun h => h, fun h => h⟩, by simp [dispatchTool, emit, hs]⟩
  | get_personal_notes =>
    exact ⟨hInv.emit_toolDispatch hs side _ (by intro hx; cases hx),
      Frame.emit s _, by simp [dispatchTool, emit, hs]⟩
  | set_additional_system_instructions sys =>
    exact ⟨(hInv.emit_toolDispatch hs side _ (by intro hx; cases hx)).of_eqFields rfl rfl rfl,
      ⟨rfl, rfl, rfl, fun h => h, fun h => h, fun h => h⟩, by simp [dispatchTool, emit, hs]⟩
  | get_additional_system_instructions =>
    exact ⟨hInv.emit_toolDispatch hs side _ (by intro hx; cases hx),
      Frame.emit s _, by simp [dispatchTool, emit, hs]⟩
  | agree_to_system_instructions_change =>
    exact ⟨(hInv.emit_toolDispatch hs side _ (by intro hx; cases hx)).of_eqFields rfl rfl rfl,
      ⟨rfl, rfl, rfl, fun h => h, fun h => h, fun h => h⟩, by simp [dispatchTool, emit, hs]⟩
  | external n ok =>
    refine ⟨?_, ?_, by simp [dispatchTool, emit, hs]⟩
    · have : (dispatchTool side (.external n ok) s).2
          = emit s (.toolDispatch side (.external n ok)) := by
        simp [dispatchTool]
      rw [this]
      exact hInv.emit_toolDispatch hs side _ (by intro hx; cases hx)
    · have : (dispatchTool side (.external n ok) s).2
          = emit s (.toolDispatch side (.external n ok)) := by
        simp [dispatchTool]
      rw [this]
      exact Frame.emit s _
  | unknown n =>
    exact ⟨hInv.emit_toolDispatch hs side _ (by intro hx; cases hx),
      Frame.emit s _, by simp [dispatchTool, emit, hs]⟩

/-- Emission does not change shouldExit. -/
@[simp] lemma emit_shouldExit (s : DialogState) (k : EventKind) :
    (emit s k).shouldExit = s.shouldExit := rfl

/-- Emission does not change terminationAccepted. -/
@[simp] lemma emit_term (s : DialogState) (k : EventKind) :
    (emit s k).terminationAccepted = s.terminationAccepted := rfl

/-- Emission does not change hushFinish. -/
@[simp] lemma emit_hush (s : DialogState) (k : EventKind) :
    (emit s k).hushFinish = s.hushFinish := rfl

/-- Emission does not change the finish-turn counter. -/
@[simp] lemma emit_ftc (s : DialogState) (k : EventKind) :
    (emit s k).finishTurnCount = s.finishTurnCount := rfl

/-- Emission appends one event. -/
@[simp] lemma emit_trace (s : DialogState) (k : EventKind) :
    (emit s k).trace
      = s.trace ++ [{ kind := k, termAccepted := s.terminationAccepted }] := rfl

/-- Emission does not change the history. -/
@[simp] lemma emit_messages (s : DialogState) (k : EventKind) :
    (emit s k).messages = s.messages := rfl

/-- Pushing a message does not change shouldExit. -/
@[simp] lemma pushMsg_shouldExit (s : DialogState) (m : ModelSide) (c : String) :
    (pushMsg s m c).shouldExit = s.shouldExit := rfl

/-- Pushing a message does not change terminationAccepted. -/
@[simp] lemma pushMsg_term (s : DialogState) (m : ModelSide) (c : String) :
    (pushMsg s m c).terminationAccepted = s.terminationAccepted := rfl

/-- Pushing a message does not change the trace. -/
@[simp] lemma pushMsg_trace (s : DialogState) (m : ModelSide) (c : String) :
    (pushMsg s m c).trace = s.trace := rfl

/-- Pushing a message does not change hushFinish. -/
@[simp] lemma pushMsg_hush (s : DialogState) (m : ModelSide) (c : String) :
    (pushMsg s m c).hushFinish = s.hushFinish := rfl

/-- Pushing a message does not change the finish-turn counter. -/
@[simp] lemma pushMsg_ftc (s : DialogState) (m : ModelSide) (c : String) :
    (pushMsg s m c).finishTurnCount = s.finishTurnCount := rfl

/-- Pushing a message appends it to the history. -/
@[simp] lemma pushMsg_messages (s : DialogState) (m : ModelSide) (c : String) :
    (pushMsg s m c).messages = s.messages ++ [{ name := m, content := c }] := rfl

/-- Emission does not change the openai failure counter. -/
@[simp] lemma emit_ofc (s : DialogState) (k : EventKind) :
    (emit s k).openaiFailureCount = s.openaiFailureCount := rfl

/-- Emission does not change the anthropic failure counter. -/
@[simp] lemma emit_afc (s : DialogState) (k : EventKind) :
    (emit s k).anthropicFailureCount = s.anthropicFailureCount := rfl

/-- Pushing a message does not change the openai failure counter. -/
@[simp] lemma pushMsg_ofc (s : DialogState) (m : ModelSide) (c : String) :
    (pushMsg s m c).openaiFailureCount = s.openaiFailureCount := rfl

/-- Pushing a message does not change the anthropic failure counter. -/
@[simp] lemma pushMsg_afc (s : DialogState) (m : ModelSide) (c : String) :
    (pushMsg s m c).anthropicFailureCount = s.anthropicFailureCount := rfl

/-- The last message content after a push is the pushed content. -/
@[simp] lemma lastContent_pushMsg (s : DialogState) (m : ModelSide) (c : String) :
    lastContent (pushMsg s m c) = c := by
  unfold lastContent
  rw [pushMsg_messages, List.getLast?_concat]

/-- Inv preservation for any log record written while the trace has no EOF
record, provided a postprocessing label is only written with shouldExit set
after no abort. -/
lemma Inv.logAny {s : DialogState} (h : Inv s)
    (hEOF : hasEvK EventKind.isEOF s.trace = false) (l : String)
    (hp : postprocEOFLabels.contains l = true →
      s.shouldExit = true ∧ hasEvK EventKind.isAbortDispatch s.trace = false) :
    Inv (logM s l) := by
  apply h.emit_gen
  · intro hx; cases hx
  · intro _; exact hEOF
  · intro hx
    exact hp (by simpa [EventKind.isPostproc] using hx)
  · rfl

/-- A trace whose postprocessing records force shouldExit has no EOF record
while shouldExit is unset. -/
lemma noEOF_of_invExit {s : DialogState} (h : Inv s) (hs : s.shouldExit = false) :
    hasEvK EventKind.isEOF s.trace = false := by
  cases hEOF : hasEvK EventKind.isEOF s.trace with
  | true =>
    exfalso
    have hp : hasEvK EventKind.isPostproc s.trace = true := by
      simp only [hasEvK, List.any_eq_true] at hEOF ⊢
      obtain ⟨e, he, hk⟩ := hEOF
      exact ⟨e, he, isEOF_isPostproc hk⟩
    rw [h.postExit hp] at hs
    cases hs
  | false => rfl

/-- Inv preservation for the turn-start marker, whose stamp must be
false. -/
lemma Inv.emit_turnStart {s : DialogState} (h : Inv s)
    (hterm : s.terminationAccepted = false) (side : ModelSide) :
    Inv (emit s (.turnStart side)) := by
  apply h.emit_gen
  · intro _; exact hterm
  · intro hx; cases hx
  · intro hx; cases hx
  · rfl

/-- The openai catch block keeps the invariant and the frame. -/
lemma openaiCatch_spec (s : DialogState) (hInv : Inv s) :
    Inv (openaiCatch s) ∧ Frame s (openaiCatch s) := by
  unfold openaiCatch
  by_cases hs : s.shouldExit = true
  · rw [if_pos hs]; exact ⟨hInv, Frame.refl s⟩
  · rw [if_neg hs]
    constructor
    · exact hInv.of_eqFields rfl rfl rfl
    · exact ⟨rfl, rfl, rfl, fun h => h, fun h => h, fun h => h⟩

/-- A log with a turn-side label keeps the invariant while shouldExit is
unset. -/
lemma Inv.log_turnLabel {s : DialogState} (h : Inv s) (hs : s.shouldExit = false)
    (l : String) (hl : postprocEOFLabels.contains l = false) : Inv (logM s l) :=
  h.logAny (noEOF_of_invExit h hs) l fun hx => by rw [hl] at hx; cases hx

/-- One openai function call keeps the invariant and the frame, and a
normal return leaves shouldExit unset. -/
lemma processOpenAICall_spec (s : DialogState) (c : ToolCall) (hInv : Inv s) :
    Inv (processOpenAICall s c).2 ∧ Frame s (processOpenAICall s c).2 ∧
    ((processOpenAICall s c).1 = .ok () → (processOpenAICall s c).2.shouldExit = false) := by
  unfold processOpenAICall
  by_cases hk : c.isKnown = false
  · rw [if_pos hk]
    exact ⟨hInv, Frame.refl s, fun h => by cases h⟩
  · rw [if_neg hk]
    by_cases hs : s.shouldExit = true
    · rw [if_pos hs]
      exact ⟨hInv, Frame.refl s, fun h => by cases h⟩
    · rw [if_neg hs]
      simp only []
      rw [if_neg (show ((logM s (openaiName ++ " (tool call)")).shouldExit = true) → False from hs)]
      have hs0 : s.shouldExit = false := by simpa using hs
      have hInv1 : Inv (logM s (openaiName ++ " (tool call)")) :=
        hInv.log_turnLabel hs0 _ (by decide)
      have hFr1 : Frame s (logM s (openaiName ++ " (tool call)")) := Frame.emit s _
      obtain ⟨hInv2, hFr2, hOk2⟩ :=
        dispatchTool_spec .openai c (logM s (openaiName ++ " (tool call)")) hInv1 hs0
      rcases hd : dispatchTool .openai c (logM s (openaiName ++ " (tool call)")) with ⟨f2, s2⟩
      rw [hd] at hInv2 hFr2 hOk2
      cases f2 with
      | ok a =>
        cases a
        have hs2exit : s2.shouldExit = false := by
          rw [hOk2]
          by_cases hc : c = ToolCall.abort_process
          · exfalso
            rw [hc] at hd
            have : (dispatchTool ModelSide.openai ToolCall.abort_process
                (logM s (openaiName ++ " (tool call)"))).1 = Flow.thrown := rfl
            rw [hd] at this
            cases this
          · simp [hc]
        show Inv (if s2.shouldExit = true then ((Flow.early : Flow Unit), s2)
              else (Flow.ok (), logM s2 (openaiName ++ " (tool result)"))).2 ∧
          Frame s (if s2.shouldExit = true then ((Flow.early : Flow Unit), s2)
              else (Flow.ok (), logM s2 (openaiName ++ " (tool result)"))).2 ∧
          ((if s2.shouldExit = true then ((Flow.early : Flow Unit), s2)
              else (Flow.ok (), logM s2 (openaiName ++ " (tool result)"))).1 = Flow.ok () →
            (if s2.shouldExit = true then ((Flow.early : Flow Unit), s2)
              else (Flow.ok (), logM s2 (openaiName ++ " (tool result)"))).2.shouldExit = false)
        rw [if_neg (by simp [hs2exit])]
        refine ⟨hInv2.log_turnLabel hs2exit _ (by decide), ?_, fun _ => hs2exit⟩
        exact (hFr1.trans hFr2).trans (Frame.emit s2 _)
      | thrown => exact ⟨hInv2, hFr1.trans hFr2, fun h => by cases h⟩
      | early => exact ⟨hInv2, hFr1.trans hFr2, fun h => by cases h⟩

/-- The for loop over openai function calls keeps the invariant and the
frame, and a normal return leaves shouldExit unset when it started
unset. -/
lemma processOpenAICalls_spec (calls : List ToolCall) : ∀ (s : DialogState), Inv s →
    Inv (processOpenAICalls s calls).2 ∧ Frame s (processOpenAICalls s calls).2 ∧
    ((processOpenAICalls s calls).1 = .ok () → s.shouldExit = false →
      (processOpenAICalls s calls).2.shouldExit = false) := by
  induction calls with
  | nil =>
    intro s hInv
    exact ⟨hInv, Frame.refl s, fun _ h => h⟩
  | cons c rest ih =>
    intro s hInv
    obtain ⟨hInv1, hFr1, hOk1⟩ := processOpenAICall_spec s c hInv
    rcases hp : processOpenAICall s c with ⟨f1, s1⟩
    rw [hp] at hInv1 hFr1 hOk1
    cases f1 with
    | ok a =>
      cases a
      obtain ⟨hInv2, hFr2, hOk2⟩ := ih s1 hInv1
      simp only [processOpenAICalls, hp]
      exact ⟨hInv2, hFr1.trans hFr2, fun hok _ => hOk2 hok (hOk1 rfl)⟩
    | thrown =>
      simp only [processOpenAICalls, hp]
      exact ⟨hInv1, hFr1, fun h => by cases h⟩
    | early =>
      simp only [processOpenAICalls, hp]
      exact ⟨hInv1, hFr1, fun h => by cases h⟩

/-- The response loop of the openai turn keeps the invariant and the
frame. -/
lemma openaiLoop_spec : ∀ (script : List OpenAIResponse) (cur : OpenAIResponse)
    (s : DialogState), Inv s →
    Inv (openaiLoop script cur s).2.1 ∧ Frame s (openaiLoop script cur s).2.1 := by
  intro script
  induction script with
  | nil =>
    intro cur s hInv
    unfold openaiLoop
    by_cases hs : s.shouldExit = true
    · rw [if_pos hs]; exact ⟨hInv, Frame.refl s⟩
    · rw [if_neg hs]
      by_cases he : cur.output.isEmpty = true
      · rw [if_pos he]; exact ⟨hInv, Frame.refl s⟩
      · rw [if_neg he]
        simp only []
        by_cases hc : (functionCallsOf cur.output).isEmpty = false
        · rw [if_pos hc]
          obtain ⟨hInv1, hFr1, _⟩ := processOpenAICalls_spec (functionCallsOf cur.output) s hInv
          rcases hp : processOpenAICalls s (functionCallsOf cur.output) with ⟨f1, s1⟩
          rw [hp] at hInv1 hFr1
          cases f1 with
          | ok a =>
            cases a
            exact ⟨hInv1.emit_plain _ rfl rfl rfl, hFr1.trans (Frame.emit s1 _)⟩
          | thrown => exact ⟨hInv1, hFr1⟩
          | early => exact ⟨hInv1, hFr1⟩
        · rw [if_neg hc, if_neg hs]
          cases hm : findLastOutputMessage cur.output with
          | none => exact ⟨hInv.of_eqFields rfl rfl rfl, Frame.pushMsg s _ _⟩
          | some content => exact ⟨hInv.of_eqFields rfl rfl rfl, Frame.pushMsg s _ _⟩
  | cons nxt rest ih =>
    intro cur s hInv
    unfold openaiLoop
    by_cases hs : s.shouldExit = true
    · rw [if_pos hs]; exact ⟨hInv, Frame.refl s⟩
    · rw [if_neg hs]
      by_cases he : cur.output.isEmpty = true
      · rw [if_pos he]; exact ⟨hInv, Frame.refl s⟩
      · rw [if_neg he]
        simp only []
        by_cases hc : (functionCallsOf cur.output).isEmpty = false
        · rw [if_pos hc]
          have hs0 : s.shouldExit = false := by simpa using hs
          obtain ⟨hInv1, hFr1, hOk1⟩ := processOpenAICalls_spec (functionCallsOf cur.output) s hInv
          rcases hp : processOpenAICalls s (functionCallsOf cur.output) with ⟨f1, s1⟩
          rw [hp] at hInv1 hFr1 hOk1
          cases f1 with
          | ok a =>
            cases a
            have hs1 : s1.shouldExit = false := hOk1 rfl hs0
            simp only []
            rw [if_neg (show ((emit s1 (.vendorCall .openai)).shouldExit = true) → False by
              simp [hs1])]
            have hInvE : Inv (emit s1 (.vendorCall .openai)) := hInv1.emit_plain _ rfl rfl rfl
            obtain ⟨hInv2, hFr2⟩ := ih nxt (emit s1 (.vendorCall .openai)) hInvE
            exact ⟨hInv2, ((hFr1.trans (Frame.emit s1 _)).trans hFr2)⟩
          | thrown => exact ⟨hInv1, hFr1⟩
          | early => exact ⟨hInv1, hFr1⟩
        · rw [if_neg hc, if_neg hs]
          cases hm : findLastOutputMessage cur.output with
          | none => exact ⟨hInv.of_eqFields rfl rfl rfl, Frame.pushMsg s _ _⟩
          | some content => exact ⟨hInv.of_eqFields rfl rfl rfl, Frame.pushMsg s _ _⟩

/-- The final response-loop match of the openai turn keeps the invariant
and the frame. -/
lemma openaiTurnLoop_spec (rest : List OpenAIResponse) (first : OpenAIResponse)
    (sL : DialogState) (hInv : Inv sL) :
    Inv (match openaiLoop rest first sL with
      | (.ok _, s, r) => (s, r)
      | (.early, s, r) => (s, r)
      | (.thrown, s, r) => (openaiCatch s, r)).1 ∧
    Frame sL (match openaiLoop rest first sL with
      | (.ok _, s, r) => (s, r)
      | (.early, s, r) => (s, r)
      | (.thrown, s, r) => (openaiCatch s, r)).1 := by
  obtain ⟨hInvL, hFrL⟩ := openaiLoop_spec rest first sL hInv
  rcases hl : openaiLoop rest first sL with ⟨fl, sl, rl⟩
  rw [hl] at hInvL hFrL
  cases fl with
  | ok a => cases a; exact ⟨hInvL, hFrL⟩
  | thrown =>
    obtain ⟨h1, h2⟩ := openaiCatch_spec sl hInvL
    exact ⟨h1, hFrL.trans h2⟩
  | early => exact ⟨hInvL, hFrL⟩

/-- The remainder of the openai turn after the hush update keeps the
invariant and the frame. -/
lemma openaiTurnRest_spec (script : List OpenAIResponse) (sH : DialogState)
    (hInv : Inv sH) (hexit : sH.shouldExit = false) :
    Inv (match vendorCallO sH script with
      | (none, s, rest) => (openaiCatch s, rest)
      | (some first, s, rest) =>
        if s.shouldExit = true then (s, rest)
        else
          let s := if first.usageDetails then logM s (openaiName ++ " (thinking)") else s
          if s.shouldExit = true then (s, rest)
          else
            match openaiLoop rest first s with
            | (.ok _, s, rest) => (s, rest)
            | (.early, s, rest) => (s, rest)
            | (.thrown, s, rest) => (openaiCatch s, rest)).1 ∧
    Frame sH (match vendorCallO sH script with
      | (none, s, rest) => (openaiCatch s, rest)
      | (some first, s, rest) =>
        if s.shouldExit = true then (s, rest)
        else
          let s := if first.usageDetails then logM s (openaiName ++ " (thinking)") else s
          if s.shouldExit = true then (s, rest)
          else
            match openaiLoop rest first s with
            | (.ok _, s, rest) => (s, rest)
            | (.early, s, rest) => (s, rest)
            | (.thrown, s, rest) => (openaiCatch s, rest)).1 := by
  have hInvV : Inv (emit sH (.vendorCall .openai)) := hInv.emit_plain _ rfl rfl rfl
  have hFrV : Frame sH (emit sH (.vendorCall .openai)) := Frame.emit sH _
  cases script with
  | nil =>
    obtain ⟨h1, h2⟩ := openaiCatch_spec (emit sH (.vendorCall .openai)) hInvV
    exact ⟨h1, hFrV.trans h2⟩
  | cons first rest =>
    have hv : vendorCallO sH (first :: rest)
        = (some first, emit sH (.vendorCall .openai), rest) := rfl
    rw [hv]
    try simp only []
    rw [if_neg (show ((emit sH (.vendorCall .openai)).shouldExit = true) → False by
      simp [hexit])]
    try simp only []
    by_cases hud : first.usageDetails = true
    · rw [if_pos hud]
      have hInvL : Inv (logM (emit sH (.vendorCall .openai)) (openaiName ++ " (thinking)")) :=
        hInvV.log_turnLabel hexit _ (by decide)
      rw [if_neg (show ((logM (emit sH (.vendorCall .openai))
          (openaiName ++ " (thinking)")).shouldExit = true) → False by simp [logM, hexit])]
      obtain ⟨h1, h2⟩ := openaiTurnLoop_spec rest first _ hInvL
      exact ⟨h1, (hFrV.trans (Frame.emit _ _)).trans h2⟩
    · rw [if_neg hud]
      rw [if_neg (show ((emit sH (.vendorCall .openai)).shouldExit = true) → False by
        simp [hexit])]
      obtain ⟨h1, h2⟩ := openaiTurnLoop_spec rest first _ hInvV
      exact ⟨h1, hFrV.trans h2⟩

/-- The openai turn executor keeps the invariant and the frame, provided
terminationAccepted is unset at entry (or the turn exits at once). -/
lemma openaiTurn_spec (env : Env) (script : List OpenAIResponse) (s : DialogState)
    (hInv : Inv s) (hpre : s.terminationAccepted = false ∨ s.shouldExit = true) :
    Inv (openaiTurn env script s).1 ∧ Frame s (openaiTurn env script s).1 := by
  unfold openaiTurn
  by_cases hs : s.shouldExit = true
  · rw [if_pos hs]; exact ⟨hInv, Frame.refl s⟩
  · rw [if_neg hs]
    have hs0 : s.shouldExit = false := by simpa using hs
    have hterm : s.terminationAccepted = false := by
      rcases hpre with h | h
      · exact h
      · rw [h] at hs0; cases hs0
    simp only []
    rw [if_neg (show ((emit s (.turnStart .openai)).shouldExit = true) → False by simp [hs0])]
    have hInvT : Inv (emit s (.turnStart .openai)) := hInv.emit_turnStart hterm .openai
    have hFrT : Frame s (emit s (.turnStart .openai)) := Frame.emit s _
    by_cases hcount : openaiHushCeiling < env.est (emit s (.turnStart .openai)).messages + 500
    · rw [if_pos hcount]
      have hInvH : Inv { emit s (.turnStart .openai) with hushFinish := true } :=
        hInvT.of_eqFields rfl rfl rfl
      have hFrH : Frame (emit s (.turnStart .openai))
          { emit s (.turnStart .openai) with hushFinish := true } :=
        ⟨rfl, rfl, rfl, fun h => h, fun h => h, fun _ => rfl⟩
      rw [if_neg (show (({ emit s (.turnStart .openai) with
          hushFinish := true } : DialogState).shouldExit = true) → False by
        simp [emit, hs0])]
      obtain ⟨h1, h2⟩ := openaiTurnRest_spec script _ hInvH (by simp [emit, hs0])
      exact ⟨h1, (hFrT.trans hFrH).trans h2⟩
    · rw [if_neg hcount]
      rw [if_neg (show ((emit s (.turnStart .openai)).shouldExit = true) → False by
        simp [hs0])]
      obtain ⟨h1, h2⟩ := openaiTurnRest_spec script _ hInvT hs0
      exact ⟨h1, hFrT.trans h2⟩

/-- The anthropic catch block keeps the invariant and the frame. -/
lemma anthropicCatch_spec (s : DialogState) (hInv : Inv s) :
    Inv (anthropicCatch s) ∧ Frame s (anthropicCatch s) := by
  unfold anthropicCatch
  by_cases hs : s.shouldExit = true
  · rw [if_pos hs]; exact ⟨hInv, Frame.refl s⟩
  · rw [if_neg hs]
    constructor
    · exact hInv.of_eqFields rfl rfl rfl
    · exact ⟨rfl, rfl, rfl, fun h => h, fun h => h, fun h => h⟩

/-- Logging the thinking blocks keeps the invariant, the frame and the
unset shouldExit flag. -/
lemma logThinking_spec : ∀ (blocks : List AnthropicBlock) (s : DialogState), Inv s →
    s.shouldExit = false →
    Inv (logThinking s blocks).2 ∧ Frame s (logThinking s blocks).2 ∧
    (logThinking s blocks).2.shouldExit = false := by
  intro blocks
  induction blocks with
  | nil => intro s hInv hs; exact ⟨hInv, Frame.refl s, hs⟩
  | cons b rest ih =>
    intro s hInv hs
    cases b with
    | thinking t =>
      have hInv1 : Inv (logM s (anthropicName ++ " (thinking)")) :=
        hInv.log_turnLabel hs _ (by decide)
      show Inv (if (logM s (anthropicName ++ " (thinking)")).shouldExit = true
            then ((Flow.early : Flow Unit), logM s (anthropicName ++ " (thinking)"))
            else logThinking (logM s (anthropicName ++ " (thinking)")) rest).2 ∧
        Frame s (if (logM s (anthropicName ++ " (thinking)")).shouldExit = true
            then ((Flow.early : Flow Unit), logM s (anthropicName ++ " (thinking)"))
            else logThinking (logM s (anthropicName ++ " (thinking)")) rest).2 ∧
        (if (logM s (anthropicName ++ " (thinking)")).shouldExit = true
            then ((Flow.early : Flow Unit), logM s (anthropicName ++ " (thinking)"))
            else logThinking (logM s (anthropicName ++ " (thinking)")) rest).2.shouldExit = false
      rw [if_neg (show ((logM s (anthropicName ++ " (thinking)")).shouldExit = true) → False by
        simp [logM, hs])]
      obtain ⟨h1, h2, h3⟩ := ih (logM s (anthropicName ++ " (thinking)")) hInv1 hs
      exact ⟨h1, (Frame.emit s _).trans h2, h3⟩
    | text t => exact ih s hInv hs
    | tool_use c => exact ih s hInv hs
    | otherBlock => exact ih s hInv hs

/-- One anthropic tool use keeps the invariant and the frame, and a normal
return leaves shouldExit unset; unlike the openai side the call log is not
guarded, so shouldExit must be unset at entry. -/
lemma processAnthropicCall_spec (s : DialogState) (c : ToolCall) (hInv : Inv s)
    (hs : s.shouldExit = false) :
    Inv (processAnthropicCall s c).2 ∧ Frame s (processAnthropicCall s c).2 ∧
    ((processAnthropicCall s c).1 = .ok () →
      (processAnthropicCall s c).2.shouldExit = false) := by
  unfold processAnthropicCall
  by_cases hk : c.isKnown = false
  · rw [if_pos hk]
    exact ⟨hInv, Frame.refl s, fun h => by cases h⟩
  · rw [if_neg hk]
    try simp only []
    rw [if_neg (show ((logM s (anthropicName ++ " (tool call)")).shouldExit = true) → False by
      simp [logM, hs])]
    have hInv1 : Inv (logM s (anthropicName ++ " (tool call)")) :=
      hInv.log_turnLabel hs _ (by decide)
    have hFr1 : Frame s (logM s (anthropicName ++ " (tool call)")) := Frame.emit s _
    obtain ⟨hInv2, hFr2, hOk2⟩ :=
      dispatchTool_spec .anthropic c (logM s (anthropicName ++ " (tool call)")) hInv1 hs
    rcases hd : dispatchTool .anthropic c (logM s (anthropicName ++ " (tool call)")) with ⟨f2, s2⟩
    rw [hd] at hInv2 hFr2 hOk2
    cases f2 with
    | ok a =>
      cases a
      have hs2exit : s2.shouldExit = false := by
        rw [hOk2]
        by_cases hc : c = ToolCall.abort_process
        · exfalso
          rw [hc] at hd
          have hcon : (dispatchTool ModelSide.anthropic ToolCall.abort_process
              (logM s (anthropicName ++ " (tool call)"))).1 = Flow.thrown := rfl
          rw [hd] at hcon
          cases hcon
        · simp [hc]
      show Inv (if s2.shouldExit = true then ((Flow.early : Flow Unit), s2)
            else (Flow.ok (), logM s2 (anthropicName ++ " (tool result)"))).2 ∧
        Frame s (if s2.shouldExit = true then ((Flow.early : Flow Unit), s2)
            else (Flow.ok (), logM s2 (anthropicName ++ " (tool result)"))).2 ∧
        ((if s2.shouldExit = true then ((Flow.early : Flow Unit), s2)
            else (Flow.ok (), logM s2 (anthropicName ++ " (tool result)"))).1 = Flow.ok () →
          (if s2.shouldExit = true then ((Flow.early : Flow Unit), s2)
            else (Flow.ok (), logM s2 (anthropicName ++ " (tool result)"))).2.shouldExit = false)
      rw [if_neg (by simp [hs2exit])]
      refine ⟨hInv2.log_turnLabel hs2exit _ (by decide), ?_, fun _ => hs2exit⟩
      exact (hFr1.trans hFr2).trans (Frame.emit s2 _)
    | thrown => exact ⟨hInv2, hFr1.trans hFr2, fun h => by cases h⟩
    | early => exact ⟨hInv2, hFr1.trans hFr2, fun h => by cases h⟩

/-- The for loop over anthropic tool uses keeps the invariant and the
frame, and a normal return leaves shouldExit unset. -/
lemma processAnthropicCalls_spec (calls : List ToolCall) : ∀ (s : DialogState), Inv s →
    s.shouldExit = false →
    Inv (processAnthropicCalls s calls).2 ∧ Frame s (processAnthropicCalls s calls).2 ∧
    ((processAnthropicCalls s calls).1 = .ok () →
      (processAnthropicCalls s calls).2.shouldExit = false) := by
  induction calls with
  | nil =>
    intro s hInv hs
    exact ⟨hInv, Frame.refl s, fun _ => hs⟩
  | cons c rest ih =>
    intro s hInv hs
    obtain ⟨hInv1, hFr1, hOk1⟩ := processAnthropicCall_spec s c hInv hs
    rcases hp : processAnthropicCall s c with ⟨f1, s1⟩
    rw [hp] at hInv1 hFr1 hOk1
    cases f1 with
    | ok a =>
      cases a
      obtain ⟨hInv2, hFr2, hOk2⟩ := ih s1 hInv1 (hOk1 rfl)
      simp only [processAnthropicCalls, hp]
      exact ⟨hInv2, hFr1.trans hFr2, hOk2⟩
    | thrown =>
      simp only [processAnthropicCalls, hp]
      exact ⟨hInv1, hFr1, fun h => by cases h⟩
    | early =>
      simp only [processAnthropicCalls, hp]
      exact ⟨hInv1, hFr1, fun h => by cases h⟩

/-- The response loop of the anthropic turn keeps the invariant and the
frame. -/
lemma anthropicLoop_spec : ∀ (script : List AnthropicResponse) (s : DialogState), Inv s →
    Inv (anthropicLoop script s).2.1 ∧ Frame s (anthropicLoop script s).2.1 := by
  intro script
  induction script with
  | nil =>
    intro s hInv
    unfold anthropicLoop
    by_cases hs : s.shouldExit = true
    · rw [if_pos hs]; exact ⟨hInv, Frame.refl s⟩
    · rw [if_neg hs]
      exact ⟨hInv.emit_plain _ rfl rfl rfl, Frame.emit s _⟩
  | cons msg rest ih =>
    intro s hInv
    unfold anthropicLoop
    by_cases hs : s.shouldExit = true
    · rw [if_pos hs]; exact ⟨hInv, Frame.refl s⟩
    · rw [if_neg hs]
      have hs0 : s.shouldExit = false := by simpa using hs
      try simp only []
      rw [if_neg (show ((emit s (.vendorCall .anthropic)).shouldExit = true) → False by
        simp [hs0])]
      have hInvV : Inv (emit s (.vendorCall .anthropic)) := hInv.emit_plain _ rfl rfl rfl
      have hFrV : Frame s (emit s (.vendorCall .anthropic)) := Frame.emit s _
      obtain ⟨hInv2, hFr2, h3⟩ :=
        logThinking_spec msg.content (emit s (.vendorCall .anthropic)) hInvV hs0
      rcases hlt : logThinking (emit s (.vendorCall .anthropic)) msg.content with ⟨flt, s2⟩
      rw [hlt] at hInv2 hFr2 h3
      have key : ∀ sU : DialogState, Inv sU → sU.shouldExit = false → Frame s2 sU →
          Inv ((if sU.shouldExit = true then ((Flow.early : Flow Unit), sU, rest)
            else
              if (List.filter (fun b => b.isThinking = false) msg.content).isEmpty = true then
                (Flow.ok (), pushMsg sU ModelSide.anthropic "", rest)
              else
                if sU.shouldExit = true then (Flow.early, sU, rest)
                else
                  if (toolUsesOf (List.filter (fun b => b.isThinking = false)
                      msg.content)).isEmpty = true then
                    (Flow.ok (),
                      pushMsg sU ModelSide.anthropic
                        ((lastTextBlock (List.filter (fun b => b.isThinking = false)
                          msg.content)).getD ""),
                      rest)
                  else
                    match processAnthropicCalls sU
                        (toolUsesOf (List.filter (fun b => b.isThinking = false)
                          msg.content)) with
                    | (Flow.ok _, s) =>
                      if s.shouldExit = true then (Flow.early, s, rest)
                      else anthropicLoop rest s
                    | (f, s) => (f, s, rest))).2.1 ∧
          Frame s2 ((if sU.shouldExit = true then ((Flow.early : Flow Unit), sU, rest)
            else
              if (List.filter (fun b => b.isThinking = false) msg.content).isEmpty = true then
                (Flow.ok (), pushMsg sU ModelSide.anthropic "", rest)
              else
                if sU.shouldExit = true then (Flow.early, sU, rest)
                else
                  if (toolUsesOf (List.filter (fun b => b.isThinking = false)
                      msg.content)).isEmpty = true then
                    (Flow.ok (),
                      pushMsg sU ModelSide.anthropic
                        ((lastTextBlock (List.filter (fun b => b.isThinking = false)
                          msg.content)).getD ""),
                      rest)
                  else
                    match processAnthropicCalls sU
                        (toolUsesOf (List.filter (fun b => b.isThinking = false)
                          msg.content)) with
                    | (Flow.ok _, s) =>
                      if s.shouldExit = true then (Flow.early, s, rest)
                      else anthropicLoop rest s
                    | (f, s) => (f, s, rest))).2.1 := by
        intro sU hInvU hexitU hFrU
        rw [if_neg (by simp [hexitU])]
        by_cases hAB : (List.filter (fun b => b.isThinking = false) msg.content).isEmpty = true
        · rw [if_pos hAB]
          exact ⟨hInvU.of_eqFields rfl rfl rfl, hFrU.trans (Frame.pushMsg sU _ _)⟩
        · rw [if_neg hAB, if_neg (by simp [hexitU])]
          by_cases hTU : (toolUsesOf (List.filter (fun b => b.isThinking = false)
              msg.content)).isEmpty = true
          · rw [if_pos hTU]
            exact ⟨hInvU.of_eqFields rfl rfl rfl, hFrU.trans (Frame.pushMsg sU _ _)⟩
          · rw [if_neg hTU]
            obtain ⟨hInvP, hFrP, hOkP⟩ := processAnthropicCalls_spec
              (toolUsesOf (List.filter (fun b => b.isThinking = false) msg.content))
              sU hInvU hexitU
            rcases hp : processAnthropicCalls sU
                (toolUsesOf (List.filter (fun b => b.isThinking = false) msg.content))
              with ⟨fp, sp⟩
            rw [hp] at hInvP hFrP hOkP
            cases fp with
            | ok a =>
              cases a
              have hspexit : sp.shouldExit = false := hOkP rfl
              show Inv (if sp.shouldExit = true then ((Flow.early : Flow Unit), sp, rest)
                    else anthropicLoop rest sp).2.1 ∧
                Frame s2 (if sp.shouldExit = true then ((Flow.early : Flow Unit), sp, rest)
                    else anthropicLoop rest sp).2.1
              rw [if_neg (by simp [hspexit])]
              obtain ⟨h1, h2⟩ := ih sp hInvP
              exact ⟨h1, (hFrU.trans hFrP).trans h2⟩
            | thrown => exact ⟨hInvP, hFrU.trans hFrP⟩
            | early => exact ⟨hInvP, hFrU.trans hFrP⟩
      cases flt with
      | early => exact ⟨hInv2, hFrV.trans hFr2⟩
      | ok a =>
        cases a
        try simp only []
        rcases hu : msg.usage with _ | u
        · try simp only []
          obtain ⟨h1, h2⟩ := key { s2 with hushFinish := true }
            (hInv2.of_eqFields rfl rfl rfl) h3
            ⟨rfl, rfl, rfl, fun h => h, fun h => h, fun _ => rfl⟩
          exact ⟨h1, (hFrV.trans hFr2).trans h2⟩
        · try simp only []
          by_cases hcap : anthropicHushCeiling < u.1 + u.2
          · rw [if_pos hcap]
            obtain ⟨h1, h2⟩ := key { s2 with hushFinish := true }
              (hInv2.of_eqFields rfl rfl rfl) h3
              ⟨rfl, rfl, rfl, fun h => h, fun h => h, fun _ => rfl⟩
            exact ⟨h1, (hFrV.trans hFr2).trans h2⟩
          · rw [if_neg hcap]
            obtain ⟨h1, h2⟩ := key s2 hInv2 h3 (Frame.refl s2)
            exact ⟨h1, (hFrV.trans hFr2).trans h2⟩
      | thrown =>
        try simp only []
        rcases hu : msg.usage with _ | u
        · try simp only []
          obtain ⟨h1, h2⟩ := key { s2 with hushFinish := true }
            (hInv2.of_eqFields rfl rfl rfl) h3
            ⟨rfl, rfl, rfl, fun h => h, fun h => h, fun _ => rfl⟩
          exact ⟨h1, (hFrV.trans hFr2).trans h2⟩
        · try simp only []
          by_cases hcap : anthropicHushCeiling < u.1 + u.2
          · rw [if_pos hcap]
            obtain ⟨h1, h2⟩ := key { s2 with hushFinish := true }
              (hInv2.of_eqFields rfl rfl rfl) h3
              ⟨rfl, rfl, rfl, fun h => h, fun h => h, fun _ => rfl⟩
            exact ⟨h1, (hFrV.trans hFr2).trans h2⟩
          · rw [if_neg hcap]
            obtain ⟨h1, h2⟩ := key s2 hInv2 h3 (Frame.refl s2)
            exact ⟨h1, (hFrV.trans hFr2).trans h2⟩

/-- The EOF-and-render tail of the finish sequence: the invariant survives,
an EOF record is now present, and the counters are untouched. -/
lemma finishEOF_spec (s : DialogState) (hInv : Inv s) (hexit : s.shouldExit = true)
    (hEOF : hasEvK EventKind.isEOF s.trace = false)
    (hAb : hasEvK EventKind.isAbortDispatch s.trace = false) :
    Inv (finishEOF s) ∧ (finishEOF s).shouldExit = true ∧
    hasEvK EventKind.isEOF (finishEOF s).trace = true ∧
    (finishEOF s).finishTurnCount = s.finishTurnCount ∧
    (finishEOF s).hushFinish = s.hushFinish ∧
    (finishEOF s).terminationAccepted = s.terminationAccepted ∧
    (finishEOF s).started = s.started ∧
    (finishEOF s).startingSide = s.startingSide := by
  have hInv1 : Inv (logM s "EOF") := hInv.logAny hEOF _ (fun _ => ⟨hexit, hAb⟩)
  refine ⟨hInv1.emit_plain _ rfl rfl rfl, by simp only [finishEOF, logM, emit_shouldExit]; exact hexit, ?_,
    by simp only [finishEOF, logM, emit_ftc], by simp only [finishEOF, logM, emit_hush],
    by simp only [finishEOF, logM, emit_term], by simp only [finishEOF, logM]; rfl,
    by simp only [finishEOF, logM]; rfl⟩
  show hasEvK EventKind.isEOF (emit (logM s "EOF") .htmlRender).trace = true
  simp only [logM, emit_trace]
  rw [hasEvK_append_one, hasEvK_append_one, hEOF]
  simp [EventKind.isEOF]

set_option maxHeartbeats 3000000 in
/-- The postprocessing chain of the finish sequence, for an arbitrary base
state with shouldExit already set: the invariant survives, an EOF record is
written, and the counters are untouched. -/
lemma finishChain_spec (env : Env) (t : DialogState) (hInv : Inv t)
    (hexit : t.shouldExit = true) (hEOF : hasEvK EventKind.isEOF t.trace = false)
    (hAb : hasEvK EventKind.isAbortDispatch t.trace = false) :
    Inv (if env.summarizeOk = false then finishEOF (logM t "POSTPROC_ERROR")
      else
        if env.extractOk = false then
          finishEOF (logM (emit (logM t "POSTPROC_SUMMARY") .postprocVendorCall)
            "POSTPROC_ERROR")
        else
          if env.neo4jOk = false then
            finishEOF (logM (emit (logM (emit (logM t "POSTPROC_SUMMARY")
              .postprocVendorCall) "POSTPROC_GRAPH") .neo4jWrite) "POSTPROC_ERROR")
          else
            finishEOF (logM (emit (logM (emit (logM t "POSTPROC_SUMMARY")
              .postprocVendorCall) "POSTPROC_GRAPH") .neo4jWrite) "POSTPROC_NEO4J")) ∧
    (if env.summarizeOk = false then finishEOF (logM t "POSTPROC_ERROR")
      else
        if env.extractOk = false then
          finishEOF (logM (emit (logM t "POSTPROC_SUMMARY") .postprocVendorCall)
            "POSTPROC_ERROR")
        else
          if env.neo4jOk = false then
            finishEOF (logM (emit (logM (emit (logM t "POSTPROC_SUMMARY")
              .postprocVendorCall) "POSTPROC_GRAPH") .neo4jWrite) "POSTPROC_ERROR")
          else
            finishEOF (logM (emit (logM (emit (logM t "POSTPROC_SUMMARY")
              .postprocVendorCall) "POSTPROC_GRAPH") .neo4jWrite) "POSTPROC_NEO4J")).shouldExit
      = true ∧
    hasEvK EventKind.isEOF
      (if env.summarizeOk = false then finishEOF (logM t "POSTPROC_ERROR")
        else
          if env.extractOk = false then
            finishEOF (logM (emit (logM t "POSTPROC_SUMMARY") .postprocVendorCall)
              "POSTPROC_ERROR")
          else
            if env.neo4jOk = false then
              finishEOF (logM (emit (logM (emit (logM t "POSTPROC_SUMMARY")
                .postprocVendorCall) "POSTPROC_GRAPH") .neo4jWrite) "POSTPROC_ERROR")
            else
              finishEOF (logM (emit (logM (emit (logM t "POSTPROC_SUMMARY")
                .postprocVendorCall) "POSTPROC_GRAPH") .neo4jWrite)
                "POSTPROC_NEO4J")).trace = true ∧
    (if env.summarizeOk = false then finishEOF (logM t "POSTPROC_ERROR")
      else
        if env.extractOk = false then
          finishEOF (logM (emit (logM t "POSTPROC_SUMMARY") .postprocVendorCall)
            "POSTPROC_ERROR")
        else
          if env.neo4jOk = false then
            finishEOF (logM (emit (logM (emit (logM t "POSTPROC_SUMMARY")
              .postprocVendorCall) "POSTPROC_GRAPH") .neo4jWrite) "POSTPROC_ERROR")
          else
            finishEOF (logM (emit (logM (emit (logM t "POSTPROC_SUMMARY")
              .postprocVendorCall) "POSTPROC_GRAPH") .neo4jWrite)
              "POSTPROC_NEO4J")).finishTurnCount = t.finishTurnCount ∧
    (if env.summarizeOk = false then finishEOF (logM t "POSTPROC_ERROR")
      else
        if env.extractOk = false then
          finishEOF (logM (emit (logM t "POSTPROC_SUMMARY") .postprocVendorCall)
            "POSTPROC_ERROR")
        else
          if env.neo4jOk = false then
            finishEOF (logM (emit (logM (emit (logM t "POSTPROC_SUMMARY")
              .postprocVendorCall) "POSTPROC_GRAPH") .neo4jWrite) "POSTPROC_ERROR")
          else
            finishEOF (logM (emit (logM (emit (logM t "POSTPROC_SUMMARY")
              .postprocVendorCall) "POSTPROC_GRAPH") .neo4jWrite)
              "POSTPROC_NEO4J")).hushFinish = t.hushFinish ∧
    (if env.summarizeOk = false then finishEOF (logM t "POSTPROC_ERROR")
      else
        if env.extractOk = false then
          finishEOF (logM (emit (logM t "POSTPROC_SUMMARY") .postprocVendorCall)
            "POSTPROC_ERROR")
        else
          if env.neo4jOk = false then
            finishEOF (logM (emit (logM (emit (logM t "POSTPROC_SUMMARY")
              .postprocVendorCall) "POSTPROC_GRAPH") .neo4jWrite) "POSTPROC_ERROR")
          else
            finishEOF (logM (emit (logM (emit (logM t "POSTPROC_SUMMARY")
              .postprocVendorCall) "POSTPROC_GRAPH") .neo4jWrite)
              "POSTPROC_NEO4J")).terminationAccepted = t.terminationAccepted := by
  by_cases hsum : env.summarizeOk = false
  · rw [if_pos hsum]
    have hInv3 : Inv (logM t "POSTPROC_ERROR") :=
      hInv.logAny hEOF _ (fun hx => absurd hx (by decide))
    have hEOF3 : hasEvK EventKind.isEOF (logM t "POSTPROC_ERROR").trace = false := by
      simp only [logM, emit_trace]
      rw [hasEvK_append_one, hEOF]
      simp [EventKind.isEOF]
    have hAb3 : hasEvK EventKind.isAbortDispatch (logM t "POSTPROC_ERROR").trace = false := by
      simp only [logM, emit_trace]
      rw [hasEvK_append_one, hAb]
      simp [EventKind.isAbortDispatch]
    obtain ⟨h1, h2, h3, -, -, -, -, -⟩ :=
      finishEOF_spec (logM t "POSTPROC_ERROR") hInv3 (by simp only [logM, emit_shouldExit]; exact hexit) hEOF3 hAb3
    exact ⟨h1, h2, h3, by simp only [finishEOF, logM, emit_ftc],
        by simp only [finishEOF, logM, emit_hush], by simp only [finishEOF, logM, emit_term]⟩
  · rw [if_neg hsum]
    have hInv3 : Inv (logM t "POSTPROC_SUMMARY") :=
      hInv.logAny hEOF _ (fun _ => ⟨hexit, hAb⟩)
    have hInv4 : Inv (emit (logM t "POSTPROC_SUMMARY") .postprocVendorCall) :=
      hInv3.emit_plain _ rfl rfl rfl
    have hEOF4 : hasEvK EventKind.isEOF
        (emit (logM t "POSTPROC_SUMMARY") .postprocVendorCall).trace = false := by
      simp only [logM, emit_trace]
      rw [hasEvK_append_one, hasEvK_append_one, hEOF]
      simp [EventKind.isEOF]
    have hAb4 : hasEvK EventKind.isAbortDispatch
        (emit (logM t "POSTPROC_SUMMARY") .postprocVendorCall).trace = false := by
      simp only [logM, emit_trace]
      rw [hasEvK_append_one, hasEvK_append_one, hAb]
      simp [EventKind.isAbortDispatch]
    by_cases hext : env.extractOk = false
    · rw [if_pos hext]
      have hInv5 : Inv (logM (emit (logM t "POSTPROC_SUMMARY") .postprocVendorCall)
          "POSTPROC_ERROR") :=
        hInv4.logAny hEOF4 _ (fun hx => absurd hx (by decide))
      have hEOF5 : hasEvK EventKind.isEOF
          (logM (emit (logM t "POSTPROC_SUMMARY") .postprocVendorCall)
            "POSTPROC_ERROR").trace = false := by
        simp only [logM, emit_trace]
        rw [hasEvK_append_one, hasEvK_append_one, hasEvK_append_one, hEOF]
        simp [EventKind.isEOF]
      have hAb5 : hasEvK EventKind.isAbortDispatch
          (logM (emit (logM t "POSTPROC_SUMMARY") .postprocVendorCall)
            "POSTPROC_ERROR").trace = false := by
        simp only [logM, emit_trace]
        rw [hasEvK_append_one, hasEvK_append_one, hasEvK_append_one, hAb]
        simp [EventKind.isAbortDispatch]
      obtain ⟨h1, h2, h3, -, -, -, -, -⟩ :=
        finishEOF_spec (logM (emit (logM t "POSTPROC_SUMMARY") .postprocVendorCall)
          "POSTPROC_ERROR") hInv5 (by simp only [logM, emit_shouldExit]; exact hexit) hEOF5 hAb5
      exact ⟨h1, h2, h3, by simp only [finishEOF, logM, emit_ftc],
        by simp only [finishEOF, logM, emit_hush], by simp only [finishEOF, logM, emit_term]⟩
    · rw [if_neg hext]
      have hInv5 : Inv (logM (emit (logM t "POSTPROC_SUMMARY") .postprocVendorCall)
          "POSTPROC_GRAPH") :=
        hInv4.logAny hEOF4 _ (fun _ => ⟨by simp only [logM, emit_shouldExit]; exact hexit, hAb4⟩)
      have hInv6 : Inv (emit (logM (emit (logM t "POSTPROC_SUMMARY") .postprocVendorCall)
          "POSTPROC_GRAPH") .neo4jWrite) :=
        hInv5.emit_plain _ rfl rfl rfl
      have hEOF6 : hasEvK EventKind.isEOF
          (emit (logM (emit (logM t "POSTPROC_SUMMARY") .postprocVendorCall)
            "POSTPROC_GRAPH") .neo4jWrite).trace = false := by
        simp only [logM, emit_trace]
        rw [hasEvK_append_one, hasEvK_append_one, hasEvK_append_one, hasEvK_append_one, hEOF]
        simp [EventKind.isEOF]
      have hAb6 : hasEvK EventKind.isAbortDispatch
          (emit (logM (emit (logM t "POSTPROC_SUMMARY") .postprocVendorCall)
            "POSTPROC_GRAPH") .neo4jWrite).trace = false := by
        simp only [logM, emit_trace]
        rw [hasEvK_append_one, hasEvK_append_one, hasEvK_append_one, hasEvK_append_one, hAb]
        simp [EventKind.isAbortDispatch]
      by_cases hneo : env.neo4jOk = false
      · rw [if_pos hneo]
        have hInv7 : Inv (logM (emit (logM (emit (logM t "POSTPROC_SUMMARY")
            .postprocVendorCall) "POSTPROC_GRAPH") .neo4jWrite) "POSTPROC_ERROR") :=
          hInv6.logAny hEOF6 _ (fun hx => absurd hx (by decide))
        have hEOF7 : hasEvK EventKind.isEOF
            (logM (emit (logM (emit (logM t "POSTPROC_SUMMARY") .postprocVendorCall)
              "POSTPROC_GRAPH") .neo4jWrite) "POSTPROC_ERROR").trace = false := by
          simp only [logM, emit_trace]
          rw [hasEvK_append_one, hasEvK_append_one, hasEvK_append_one, hasEvK_append_one,
            hasEvK_append_one, hEOF]
          simp [EventKind.isEOF]
        have hAb7 : hasEvK EventKind.isAbortDispatch
            (logM (emit (logM (emit (logM t "POSTPROC_SUMMARY") .postprocVendorCall)
              "POSTPROC_GRAPH") .neo4jWrite) "POSTPROC_ERROR").trace = false := by
          simp only [logM, emit_trace]
          rw [hasEvK_append_one, hasEvK_append_one, hasEvK_append_one, hasEvK_append_one,
            hasEvK_append_one, hAb]
          simp [EventKind.isAbortDispatch]
        obtain ⟨h1, h2, h3, -, -, -, -, -⟩ :=
          finishEOF_spec (logM (emit (logM (emit (logM t "POSTPROC_SUMMARY")
            .postprocVendorCall) "POSTPROC_GRAPH") .neo4jWrite) "POSTPROC_ERROR")
            hInv7 (by simp only [logM, emit_shouldExit]; exact hexit) hEOF7 hAb7
        exact ⟨h1, h2, h3, by simp only [finishEOF, logM, emit_ftc],
        by simp only [finishEOF, logM, emit_hush], by simp only [finishEOF, logM, emit_term]⟩
      · rw [if_neg hneo]
        have hInv7 : Inv (logM (emit (logM (emit (logM t "POSTPROC_SUMMARY")
            .postprocVendorCall) "POSTPROC_GRAPH") .neo4jWrite) "POSTPROC_NEO4J") :=
          hInv6.logAny hEOF6 _ (fun _ => ⟨by simp only [logM, emit_shouldExit]; exact hexit, hAb6⟩)
        have hEOF7 : hasEvK EventKind.isEOF
            (logM (emit (logM (emit (logM t "POSTPROC_SUMMARY") .postprocVendorCall)
              "POSTPROC_GRAPH") .neo4jWrite) "POSTPROC_NEO4J").trace = false := by
          simp only [logM, emit_trace]
          rw [hasEvK_append_one, hasEvK_append_one, hasEvK_append_one, hasEvK_append_one,
            hasEvK_append_one, hEOF]
          simp [EventKind.isEOF]
        have hAb7 : hasEvK EventKind.isAbortDispatch
            (logM (emit (logM (emit (logM t "POSTPROC_SUMMARY") .postprocVendorCall)
              "POSTPROC_GRAPH") .neo4jWrite) "POSTPROC_NEO4J").trace = false := by
          simp only [logM, emit_trace]
          rw [hasEvK_append_one, hasEvK_append_one, hasEvK_append_one, hasEvK_append_one,
            hasEvK_append_one, hAb]
          simp [EventKind.isAbortDispatch]
        obtain ⟨h1, h2, h3, -, -, -, -, -⟩ :=
          finishEOF_spec (logM (emit (logM (emit (logM t "POSTPROC_SUMMARY")
            .postprocVendorCall) "POSTPROC_GRAPH") .neo4jWrite) "POSTPROC_NEO4J")
            hInv7 (by simp only [logM, emit_shouldExit]; exact hexit) hEOF7 hAb7
        exact ⟨h1, h2, h3, by simp only [finishEOF, logM, emit_ftc],
        by simp only [finishEOF, logM, emit_hush], by simp only [finishEOF, logM, emit_term]⟩

/-- The finish sequence: the invariant survives, shouldExit is set
afterwards, a second invocation is the identity, the counters and flags
other than shouldExit are untouched, and a genuine run of the sequence
writes an EOF record. -/
lemma finish_spec (env : Env) (s : DialogState) (hInv : Inv s) :
    Inv (finish env s) ∧ (finish env s).shouldExit = true ∧
    (s.shouldExit = true → finish env s = s) ∧
    (finish env s).finishTurnCount = s.finishTurnCount ∧
    (finish env s).hushFinish = s.hushFinish ∧
    (finish env s).terminationAccepted = s.terminationAccepted ∧
    (s.shouldExit = false → hasEvK EventKind.isEOF (finish env s).trace = true) := by
  unfold finish
  by_cases hs : s.shouldExit = true
  · rw [if_pos hs]
    exact ⟨hInv, hs, fun _ => rfl, rfl, rfl, rfl, fun hc => absurd hs (by simp [hc])⟩
  · rw [if_neg hs]
    have hs0 : s.shouldExit = false := by simpa using hs
    have hEOF0 : hasEvK EventKind.isEOF s.trace = false := noEOF_of_invExit hInv hs0
    have hAb0 : hasEvK EventKind.isAbortDispatch s.trace = false := by
      cases hx : hasEvK EventKind.isAbortDispatch s.trace with
      | true => rw [(hInv.abortNoPost hx).1] at hs0; cases hs0
      | false => rfl
    have hInv0 : Inv { s with shouldExit := true } :=
      ⟨hInv.mono, hInv.flagCur, hInv.ts, hInv.okEOF, fun _ => rfl,
        fun hab => ⟨rfl, (hInv.abortNoPost hab).2⟩⟩
    have hInv1 : Inv (logM { s with shouldExit := true } "司会") :=
      hInv0.logAny hEOF0 _ (fun hx => absurd hx (by decide))
    have hInv2 : Inv (emit (logM { s with shouldExit := true } "司会") .postprocVendorCall) :=
      hInv1.emit_plain _ rfl rfl rfl
    have hEOF2 : hasEvK EventKind.isEOF
        (emit (logM { s with shouldExit := true } "司会") .postprocVendorCall).trace
        = false := by
      simp only [logM, emit_trace]
      rw [hasEvK_append_one, hasEvK_append_one, hEOF0]
      simp [EventKind.isEOF]
    have hAb2 : hasEvK EventKind.isAbortDispatch
        (emit (logM { s with shouldExit := true } "司会") .postprocVendorCall).trace
        = false := by
      simp only [logM, emit_trace]
      rw [hasEvK_append_one, hasEvK_append_one, hAb0]
      simp [EventKind.isAbortDispatch]
    obtain ⟨h1, h2, h3, h4, h5, h6⟩ := finishChain_spec env
      (emit (logM { s with shouldExit := true } "司会") .postprocVendorCall)
      hInv2 (by simp only [logM, emit_shouldExit]) hEOF2 hAb2
    exact ⟨h1, h2, fun hc => absurd hc (by simp [hs0]),
      h4.trans (by simp only [logM, emit_ftc]),
      h5.trans (by simp only [logM, emit_hush]),
      h6.trans (by simp only [logM, emit_term]), fun _ => h3⟩

/-- The anthropic turn executor keeps the invariant and the frame, provided
terminationAccepted is unset at entry (or the turn exits at once). -/
lemma anthropicTurn_spec (script : List AnthropicResponse) (s : DialogState)
    (hInv : Inv s) (hpre : s.terminationAccepted = false ∨ s.shouldExit = true) :
    Inv (anthropicTurn script s).1 ∧ Frame s (anthropicTurn script s).1 := by
  unfold anthropicTurn
  by_cases hs : s.shouldExit = true
  · rw [if_pos hs]; exact ⟨hInv, Frame.refl s⟩
  · rw [if_neg hs]
    have hs0 : s.shouldExit = false := by simpa using hs
    have hterm : s.terminationAccepted = false := by
      rcases hpre with h | h
      · exact h
      · rw [h] at hs0; cases hs0
    try simp only []
    rw [if_neg (show ((emit s (.turnStart .anthropic)).shouldExit = true) → False by
      simp [hs0])]
    have hInvT : Inv (emit s (.turnStart .anthropic)) := hInv.emit_turnStart hterm .anthropic
    have hFrT : Frame s (emit s (.turnStart .anthropic)) := Frame.emit s _
    obtain ⟨hInvL, hFrL⟩ := anthropicLoop_spec script (emit s (.turnStart .anthropic)) hInvT
    rcases hl : anthropicLoop script (emit s (.turnStart .anthropic)) with ⟨fl, sl, rl⟩
    rw [hl] at hInvL hFrL
    cases fl with
    | ok a => cases a; exact ⟨hInvL, hFrT.trans hFrL⟩
    | thrown =>
      obtain ⟨h1, h2⟩ := anthropicCatch_spec sl hInvL
      exact ⟨h1, (hFrT.trans hFrL).trans h2⟩
    | early => exact ⟨hInvL, hFrT.trans hFrL⟩

/-- The hush checkpoint does not change shouldExit. -/
@[simp] lemma bumpIfHush_shouldExit (s : DialogState) :
    (bumpIfHush s).shouldExit = s.shouldExit := by
  unfold bumpIfHush; split <;> rfl

/-- The hush checkpoint does not change terminationAccepted. -/
@[simp] lemma bumpIfHush_term (s : DialogState) :
    (bumpIfHush s).terminationAccepted = s.terminationAccepted := by
  unfold bumpIfHush; split <;> rfl

/-- The hush checkpoint does not change the trace. -/
@[simp] lemma bumpIfHush_trace (s : DialogState) :
    (bumpIfHush s).trace = s.trace := by
  unfold bumpIfHush; split <;> rfl

/-- The hush checkpoint does not change hushFinish. -/
@[simp] lemma bumpIfHush_hush (s : DialogState) :
    (bumpIfHush s).hushFinish = s.hushFinish := by
  unfold bumpIfHush; split <;> rfl

/-- The hush checkpoint keeps the invariant. -/
lemma Inv.bump {s : DialogState} (h : Inv s) : Inv (bumpIfHush s) :=
  h.of_eqFields (bumpIfHush_trace s) (bumpIfHush_term s) (bumpIfHush_shouldExit s)

/-- A false termination predicate means the flag is unset. -/
lemma shouldFinish_false_term {s : DialogState} (h : shouldFinish s = false) :
    s.terminationAccepted = false := by
  unfold shouldFinish at h
  exact (Bool.or_eq_false_iff.mp h).2

/-- The openai half of the loop body keeps the invariant; when it lets the
loop proceed, shouldExit and terminationAccepted are still unset. -/
lemma openaiPhase_spec (env : Env) (sc : Scripts) (s : DialogState) (hInv : Inv s)
    (_hs : s.shouldExit = false) (hterm : s.terminationAccepted = false) :
    Inv (openaiPhase env sc s).1.state ∧
    ((openaiPhase env sc s).1.isCont = true →
      (openaiPhase env sc s).1.state.shouldExit = false ∧
      (openaiPhase env sc s).1.state.terminationAccepted = false) := by
  unfold openaiPhase
  have hInv0 : Inv { s with started := true } := hInv.of_eqFields rfl rfl rfl
  obtain ⟨hInv1, hFr1⟩ := openaiTurn_spec env sc.openai { s with started := true } hInv0
    (Or.inl hterm)
  try simp only []
  by_cases h1e : (openaiTurn env sc.openai { s with started := true }).1.shouldExit = true
  · rw [if_pos h1e]
    exact ⟨hInv1, fun hc => by simp [PhaseRes.isCont] at hc⟩
  · rw [if_neg h1e]
    have h1e0 : (openaiTurn env sc.openai { s with started := true }).1.shouldExit = false := by
      simpa using h1e
    have hInv2 : Inv (logM (bumpIfHush
        (openaiTurn env sc.openai { s with started := true }).1) openaiName) :=
      (hInv1.bump).log_turnLabel (by simp [h1e0]) _ (by decide)
    by_cases hf : shouldFinish (logM (bumpIfHush
        (openaiTurn env sc.openai { s with started := true }).1) openaiName) = true
    · rw [if_pos hf]
      exact ⟨(finish_spec env _ hInv2).1, fun hc => by simp [PhaseRes.isCont] at hc⟩
    · rw [if_neg hf]
      rw [if_neg (show ((logM (bumpIfHush
          (openaiTurn env sc.openai { s with started := true }).1) openaiName).shouldExit
          = true) → False by simp [logM, h1e0])]
      have hInv3 : Inv (emit (logM (bumpIfHush
          (openaiTurn env sc.openai { s with started := true }).1) openaiName) .sleepStep) :=
        hInv2.emit_plain _ rfl rfl rfl
      rw [if_neg (show ((emit (logM (bumpIfHush
          (openaiTurn env sc.openai { s with started := true }).1) openaiName)
          .sleepStep).shouldExit = true) → False by simp [logM, h1e0])]
      have hterm3 : (logM (bumpIfHush
          (openaiTurn env sc.openai { s with started := true }).1)
          openaiName).terminationAccepted = false :=
        shouldFinish_false_term (by simpa using hf)
      refine ⟨hInv3.bump, fun _ => ⟨?_, ?_⟩⟩
      · simp [PhaseRes.state, logM, h1e0]
      · simp only [PhaseRes.state, bumpIfHush_term, emit_term]
        exact hterm3

/-- The anthropic half of the loop body keeps the invariant; when it lets
the loop proceed, shouldExit and terminationAccepted are still unset. -/
lemma anthropicPhase_spec (env : Env) (sc : Scripts) (s : DialogState) (hInv : Inv s)
    (_hs : s.shouldExit = false) (hterm : s.terminationAccepted = false) :
    Inv (anthropicPhase env sc s).1.state ∧
    ((anthropicPhase env sc s).1.isCont = true →
      (anthropicPhase env sc s).1.state.shouldExit = false ∧
      (anthropicPhase env sc s).1.state.terminationAccepted = false) := by
  unfold anthropicPhase
  have hInv0 : Inv { s with started := true } := hInv.of_eqFields rfl rfl rfl
  obtain ⟨hInv1, hFr1⟩ := anthropicTurn_spec sc.anthropic { s with started := true } hInv0
    (Or.inl hterm)
  try simp only []
  by_cases h1e : (anthropicTurn sc.anthropic { s with started := true }).1.shouldExit = true
  · rw [if_pos h1e]
    exact ⟨hInv1, fun hc => by simp [PhaseRes.isCont] at hc⟩
  · rw [if_neg h1e]
    have h1e0 : (anthropicTurn sc.anthropic { s with started := true }).1.shouldExit
        = false := by simpa using h1e
    have hInv2 : Inv (logM (anthropicTurn sc.anthropic
        { s with started := true }).1 anthropicName) :=
      hInv1.log_turnLabel h1e0 _ (by decide)
    by_cases hf : shouldFinish (logM (anthropicTurn sc.anthropic
        { s with started := true }).1 anthropicName) = true
    · rw [if_pos hf]
      exact ⟨(finish_spec env _ hInv2).1, fun hc => by simp [PhaseRes.isCont] at hc⟩
    · rw [if_neg hf]
      rw [if_neg (show ((logM (anthropicTurn sc.anthropic
          { s with started := true }).1 anthropicName).shouldExit = true) → False by
        simp [logM, h1e0])]
      have hInv3 : Inv (emit (logM (anthropicTurn sc.anthropic
          { s with started := true }).1 anthropicName) .sleepStep) :=
        hInv2.emit_plain _ rfl rfl rfl
      rw [if_neg (show ((emit (logM (anthropicTurn sc.anthropic
          { s with started := true }).1 anthropicName) .sleepStep).shouldExit = true) → False by
        simp [logM, h1e0])]
      have hterm3 : (logM (anthropicTurn sc.anthropic
          { s with started := true }).1 anthropicName).terminationAccepted = false :=
        shouldFinish_false_term (by simpa using hf)
      refine ⟨hInv3, fun _ => ⟨?_, ?_⟩⟩
      · simp [PhaseRes.state, logM, h1e0]
      · simp only [PhaseRes.state, emit_term]
        exact hterm3

/-- The run loop keeps the invariant from any state whose termination flag
is unset (or that is already exiting). -/
lemma runLoop_inv (env : Env) : ∀ (fuel : Nat) (sc : Scripts) (s : DialogState), Inv s →
    (s.terminationAccepted = false ∨ s.shouldExit = true) →
    Inv (runLoop env fuel sc s) := by
  intro fuel
  induction fuel with
  | zero => intro sc s hInv _; exact hInv
  | succ n ih =>
    intro sc s hInv hpre
    unfold runLoop
    by_cases hs : s.shouldExit = true
    · rw [if_pos hs]; exact hInv
    · rw [if_neg hs]
      have hs0 : s.shouldExit = false := by simpa using hs
      have hterm : s.terminationAccepted = false := by
        rcases hpre with h | h
        · exact h
        · rw [h] at hs0; cases hs0
      obtain ⟨hO1, hO2⟩ := openaiPhase_spec env sc s hInv hs0 hterm
      split
      · rcases hph : openaiPhase env sc s with ⟨pr, sc2⟩
        rw [hph] at hO1 hO2
        cases pr with
        | ret s2 => exact hO1
        | cont s2 =>
          try simp only []
          obtain ⟨h2e, h2t⟩ := hO2 rfl
          obtain ⟨hA1, hA2⟩ := anthropicPhase_spec env sc2 s2 hO1 h2e h2t
          rcases hph2 : anthropicPhase env sc2 s2 with ⟨pr2, sc3⟩
          rw [hph2] at hA1 hA2
          cases pr2 with
          | ret s3 => exact hA1
          | cont s3 =>
            try simp only []
            obtain ⟨h3e, h3t⟩ := hA2 rfl
            exact ih sc3 s3 hA1 (Or.inl h3t)
      · obtain ⟨hA1, hA2⟩ := anthropicPhase_spec env sc s hInv hs0 hterm
        rcases hph2 : anthropicPhase env sc s with ⟨pr2, sc3⟩
        rw [hph2] at hA1 hA2
        cases pr2 with
        | ret s3 => exact hA1
        | cont s3 =>
          try simp only []
          obtain ⟨h3e, h3t⟩ := hA2 rfl
          exact ih sc3 s3 hA1 (Or.inl h3t)

/-- The initial state satisfies the run invariant. -/
lemma initialState_inv (startingSide : ModelSide) (kv : KVState) :
    Inv (initialState startingSide kv) := by
  cases startingSide
  case openai =>
    have htr : (initialState ModelSide.openai kv).trace
        = [{ kind := .logRecord (initialPromptLabel ModelSide.openai),
             termAccepted := false }] := rfl
    have hpost : hasEvK EventKind.isPostproc (initialState ModelSide.openai kv).trace
        = false := by rw [htr]; decide
    have habort : hasEvK EventKind.isAbortDispatch (initialState ModelSide.openai kv).trace
        = false := by rw [htr]; decide
    exact ⟨by rw [htr]; decide, fun _ => by rw [htr]; decide, by rw [htr]; decide,
      by rw [htr]; decide, fun h => absurd h (by simp [hpost]),
      fun h => absurd h (by simp [habort])⟩
  case anthropic =>
    have htr : (initialState ModelSide.anthropic kv).trace
        = [{ kind := .logRecord (initialPromptLabel ModelSide.anthropic),
             termAccepted := false }] := rfl
    have hpost : hasEvK EventKind.isPostproc (initialState ModelSide.anthropic kv).trace
        = false := by rw [htr]; decide
    have habort : hasEvK EventKind.isAbortDispatch (initialState ModelSide.anthropic kv).trace
        = false := by rw [htr]; decide
    exact ⟨by rw [htr]; decide, fun _ => by rw [htr]; decide, by rw [htr]; decide,
      by rw [htr]; decide, fun h => absurd h (by simp [hpost]),
      fun h => absurd h (by simp [habort])⟩

/-- A whole run satisfies the invariant. -/
lemma runModel_inv (env : Env) (fuel : Nat) (sc : Scripts) (side : ModelSide)
    (kv : KVState) : Inv (runModel env fuel sc side kv) :=
  runLoop_inv env fuel sc (initialState side kv) (initialState_inv side kv)
    (Or.inl rfl)

/-- Transport of the hush-zero property (an unraised hush flag means the
finish-turn counter was never bumped) along equal counter and flag
fields. -/
lemma hz_transport {s s2 : DialogState} (hftc : s2.finishTurnCount = s.finishTurnCount)
    (hhush : s2.hushFinish = s.hushFinish)
    (hz : s.hushFinish = false → s.finishTurnCount = 0) :
    s2.hushFinish = false → s2.finishTurnCount = 0 := by
  intro hh
  rw [hftc]
  exact hz (hhush ▸ hh)

/-- Transport of the hush-zero property along a frame (counter untouched,
hush monotone). -/
lemma hz_frame {s s2 : DialogState} (hFr : Frame s s2)
    (hz : s.hushFinish = false → s.finishTurnCount = 0) :
    s2.hushFinish = false → s2.finishTurnCount = 0 := by
  intro hh
  rw [hFr.1]
  apply hz
  cases hx : s.hushFinish with
  | false => rfl
  | true => rw [hFr.2.2.2.2.2 hx] at hh; cases hh

/-- The hush checkpoint keeps the hush-zero property: it only increments
when the flag is raised. -/
lemma hz_bump {s : DialogState} (hz : s.hushFinish = false → s.finishTurnCount = 0) :
    (bumpIfHush s).hushFinish = false → (bumpIfHush s).finishTurnCount = 0 := by
  intro hh
  rw [bumpIfHush_hush] at hh
  unfold bumpIfHush
  rw [if_neg (by simp [hh])]
  exact hz hh

/-- The openai half of the loop body keeps the hush-zero property. -/
lemma openaiPhase_hz (env : Env) (sc : Scripts) (s : DialogState) (hInv : Inv s)
    (hterm : s.terminationAccepted = false)
    (hz : s.hushFinish = false → s.finishTurnCount = 0) :
    (openaiPhase env sc s).1.state.hushFinish = false →
    (openaiPhase env sc s).1.state.finishTurnCount = 0 := by
  have hInv0 : Inv { s with started := true } := hInv.of_eqFields rfl rfl rfl
  obtain ⟨hInv1, hFr1⟩ := openaiTurn_spec env sc.openai { s with started := true } hInv0
    (Or.inl hterm)
  have hz1 : (openaiTurn env sc.openai { s with started := true }).1.hushFinish = false →
      (openaiTurn env sc.openai { s with started := true }).1.finishTurnCount = 0 :=
    hz_frame hFr1 (hz_transport rfl rfl hz)
  unfold openaiPhase
  try simp only []
  by_cases h1e : (openaiTurn env sc.openai { s with started := true }).1.shouldExit = true
  · rw [if_pos h1e]
    simp only [PhaseRes.state]
    exact hz1
  · rw [if_neg h1e]
    have h1e0 : (openaiTurn env sc.openai { s with started := true }).1.shouldExit = false := by
      simpa using h1e
    have hz2 : (logM (bumpIfHush (openaiTurn env sc.openai { s with started := true }).1)
        openaiName).hushFinish = false →
        (logM (bumpIfHush (openaiTurn env sc.openai { s with started := true }).1)
        openaiName).finishTurnCount = 0 :=
      hz_transport (by simp [logM]) (by simp [logM]) (hz_bump hz1)
    have hInv2 : Inv (logM (bumpIfHush (openaiTurn env sc.openai
        { s with started := true }).1) openaiName) :=
      (hInv1.bump).log_turnLabel (by simp [h1e0]) _ (by decide)
    by_cases hf : shouldFinish (logM (bumpIfHush (openaiTurn env sc.openai
        { s with started := true }).1) openaiName) = true
    · rw [if_pos hf]
      simp only [PhaseRes.state]
      obtain hfs := finish_spec env (logM (bumpIfHush (openaiTurn env sc.openai
        { s with started := true }).1) openaiName) hInv2
      exact hz_transport hfs.2.2.2.1 hfs.2.2.2.2.1 hz2
    · rw [if_neg hf]
      rw [if_neg (show ((logM (bumpIfHush (openaiTurn env sc.openai
          { s with started := true }).1) openaiName).shouldExit = true) → False by
        simp [logM, h1e0])]
      rw [if_neg (show ((emit (logM (bumpIfHush (openaiTurn env sc.openai
          { s with started := true }).1) openaiName) .sleepStep).shouldExit = true) → False by
        simp [logM, h1e0])]
      simp only [PhaseRes.state]
      exact hz_bump (hz_transport (by simp) (by simp) hz2)

/-- The anthropic half of the loop body keeps the hush-zero property. -/
lemma anthropicPhase_hz (env : Env) (sc : Scripts) (s : DialogState) (hInv : Inv s)
    (hterm : s.terminationAccepted = false)
    (hz : s.hushFinish = false → s.finishTurnCount = 0) :
    (anthropicPhase env sc s).1.state.hushFinish = false →
    (anthropicPhase env sc s).1.state.finishTurnCount = 0 := by
  have hInv0 : Inv { s with started := true } := hInv.of_eqFields rfl rfl rfl
  obtain ⟨hInv1, hFr1⟩ := anthropicTurn_spec sc.anthropic { s with started := true } hInv0
    (Or.inl hterm)
  have hz1 : (anthropicTurn sc.anthropic { s with started := true }).1.hushFinish = false →
      (anthropicTurn sc.anthropic { s with started := true }).1.finishTurnCount = 0 :=
    hz_frame hFr1 (hz_transport rfl rfl hz)
  unfold anthropicPhase
  try simp only []
  by_cases h1e : (anthropicTurn sc.anthropic { s with started := true }).1.shouldExit = true
  · rw [if_pos h1e]
    simp only [PhaseRes.state]
    exact hz1
  · rw [if_neg h1e]
    have h1e0 : (anthropicTurn sc.anthropic { s with started := true }).1.shouldExit
        = false := by simpa using h1e
    have hz2 : (logM (anthropicTurn sc.anthropic { s with started := true }).1
        anthropicName).hushFinish = false →
        (logM (anthropicTurn sc.anthropic { s with started := true }).1
        anthropicName).finishTurnCount = 0 :=
      hz_transport (by simp [logM]) (by simp [logM]) hz1
    have hInv2 : Inv (logM (anthropicTurn sc.anthropic
        { s with started := true }).1 anthropicName) :=
      hInv1.log_turnLabel h1e0 _ (by decide)
    by_cases hf : shouldFinish (logM (anthropicTurn sc.anthropic
        { s with started := true }).1 anthropicName) = true
    · rw [if_pos hf]
      simp only [PhaseRes.state]
      obtain hfs := finish_spec env (logM (anthropicTurn sc.anthropic
        { s with started := true }).1 anthropicName) hInv2
      exact hz_transport hfs.2.2.2.1 hfs.2.2.2.2.1 hz2
    · rw [if_neg hf]
      rw [if_neg (show ((logM (anthropicTurn sc.anthropic
          { s with started := true }).1 anthropicName).shouldExit = true) → False by
        simp [logM, h1e0])]
      rw [if_neg (show ((emit (logM (anthropicTurn sc.anthropic
          { s with started := true }).1 anthropicName) .sleepStep).shouldExit = true) → False by
        simp [logM, h1e0])]
      simp only [PhaseRes.state]
      exact hz_transport (by simp) (by simp) hz2

/-- The run loop keeps the hush-zero property. -/
lemma runLoop_hz (env : Env) : ∀ (fuel : Nat) (sc : Scripts) (s : DialogState), Inv s →
    (s.terminationAccepted = false ∨ s.shouldExit = true) →
    (s.hushFinish = false → s.finishTurnCount = 0) →
    (runLoop env fuel sc s).hushFinish = false →
    (runLoop env fuel sc s).finishTurnCount = 0 := by
  intro fuel
  induction fuel with
  | zero => intro sc s _ _ hz; exact hz
  | succ n ih =>
    intro sc s hInv hpre hz
    unfold runLoop
    by_cases hs : s.shouldExit = true
    · rw [if_pos hs]; exact hz
    · rw [if_neg hs]
      have hs0 : s.shouldExit = false := by simpa using hs
      have hterm : s.terminationAccepted = false := by
        rcases hpre with h | h
        · exact h
        · rw [h] at hs0; cases hs0
      obtain ⟨hO1, hO2⟩ := openaiPhase_spec env sc s hInv hs0 hterm
      have hOz := openaiPhase_hz env sc s hInv hterm hz
      split
      · rcases hph : openaiPhase env sc s with ⟨pr, sc2⟩
        rw [hph] at hO1 hO2 hOz
        cases pr with
        | ret s2 => exact hOz
        | cont s2 =>
          try simp only []
          obtain ⟨h2e, h2t⟩ := hO2 rfl
          obtain ⟨hA1, hA2⟩ := anthropicPhase_spec env sc2 s2 hO1 h2e h2t
          have hAz := anthropicPhase_hz env sc2 s2 hO1 h2t hOz
          rcases hph2 : anthropicPhase env sc2 s2 with ⟨pr2, sc3⟩
          rw [hph2] at hA1 hA2 hAz
          cases pr2 with
          | ret s3 => exact hAz
          | cont s3 =>
            try simp only []
            obtain ⟨h3e, h3t⟩ := hA2 rfl
            exact ih sc3 s3 hA1 (Or.inl h3t) hAz
      · obtain ⟨hA1, hA2⟩ := anthropicPhase_spec env sc s hInv hs0 hterm
        have hAz := anthropicPhase_hz env sc s hInv hterm hz
        rcases hph2 : anthropicPhase env sc s with ⟨pr2, sc3⟩
        rw [hph2] at hA1 hA2 hAz
        cases pr2 with
        | ret s3 => exact hAz
        | cont s3 =>
          try simp only []
          obtain ⟨h3e, h3t⟩ := hA2 rfl
          exact ih sc3 s3 hA1 (Or.inl h3t) hAz

/-- In a whole run, if the hush flag was never raised the finish-turn
counter was never bumped. -/
lemma runModel_hz (env : Env) (fuel : Nat) (sc : Scripts) (side : ModelSide)
    (kv : KVState) : (runModel env fuel sc side kv).hushFinish = false →
    (runModel env fuel sc side kv).finishTurnCount = 0 :=
  runLoop_hz env fuel sc (initialState side kv) (initialState_inv side kv)
    (Or.inl rfl) (fun _ => rfl)

/-- In the openai half of the loop body the finish sequence (recognised by
its terminal EOF record) is invoked exactly when the termination predicate
holds at the post-turn checkpoint. -/
lemma openaiPhase_finish_iff (env : Env) (sc : Scripts) (s : DialogState)
    (hInv : Inv s) (hterm : s.terminationAccepted = false)
    (h1e : (openaiTurn env sc.openai { s with started := true }).1.shouldExit = false) :
    (hasEvK EventKind.isEOF (openaiPhase env sc s).1.state.trace = true ↔
     shouldFinish (logM (bumpIfHush (openaiTurn env sc.openai { s with started := true }).1)
       openaiName) = true) := by
  have hInv0 : Inv { s with started := true } := hInv.of_eqFields rfl rfl rfl
  obtain ⟨hInv1, _⟩ := openaiTurn_spec env sc.openai { s with started := true } hInv0
    (Or.inl hterm)
  unfold openaiPhase
  try simp only []
  rw [if_neg (by simp [h1e])]
  have hs2exit : (logM (bumpIfHush (openaiTurn env sc.openai { s with started := true }).1)
      openaiName).shouldExit = false := by simp [logM, h1e]
  have hInv2 : Inv (logM (bumpIfHush (openaiTurn env sc.openai
      { s with started := true }).1) openaiName) :=
    (hInv1.bump).log_turnLabel (by simp [h1e]) _ (by decide)
  by_cases hf : shouldFinish (logM (bumpIfHush (openaiTurn env sc.openai
      { s with started := true }).1) openaiName) = true
  · rw [if_pos hf]
    have hEOF := (finish_spec env (logM (bumpIfHush (openaiTurn env sc.openai
      { s with started := true }).1) openaiName) hInv2).2.2.2.2.2.2 hs2exit
    simp only [PhaseRes.state]
    exact ⟨fun _ => hf, fun _ => hEOF⟩
  · rw [if_neg hf]
    rw [if_neg (show ((logM (bumpIfHush (openaiTurn env sc.openai
        { s with started := true }).1) openaiName).shouldExit = true) → False by
      simp [logM, h1e])]
    rw [if_neg (show ((emit (logM (bumpIfHush (openaiTurn env sc.openai
        { s with started := true }).1) openaiName) .sleepStep).shouldExit = true) → False by
      simp [logM, h1e])]
    have hnoEOF1 : hasEvK EventKind.isEOF
        (openaiTurn env sc.openai { s with started := true }).1.trace = false :=
      noEOF_of_invExit hInv1 h1e
    have hnoEOF : hasEvK EventKind.isEOF
        (bumpIfHush (emit (logM (bumpIfHush (openaiTurn env sc.openai
          { s with started := true }).1) openaiName) .sleepStep)).trace = false := by
      simp only [bumpIfHush_trace, logM, emit_trace]
      rw [hasEvK_append_one, hasEvK_append_one, hnoEOF1]
      simp [EventKind.isEOF, openaiName]
    simp only [PhaseRes.state]
    constructor
    · intro hc
      rw [hnoEOF] at hc
      cases hc
    · intro hc
      exact absurd hc hf

/-- In the anthropic half of the loop body the finish sequence is invoked
exactly when the termination predicate holds at the post-turn
checkpoint. -/
lemma anthropicPhase_finish_iff (env : Env) (sc : Scripts) (s : DialogState)
    (hInv : Inv s) (hterm : s.terminationAccepted = false)
    (h1e : (anthropicTurn sc.anthropic { s with started := true }).1.shouldExit = false) :
    (hasEvK EventKind.isEOF (anthropicPhase env sc s).1.state.trace = true ↔
     shouldFinish (logM (anthropicTurn sc.anthropic { s with started := true }).1
       anthropicName) = true) := by
  have hInv0 : Inv { s with started := true } := hInv.of_eqFields rfl rfl rfl
  obtain ⟨hInv1, _⟩ := anthropicTurn_spec sc.anthropic { s with started := true } hInv0
    (Or.inl hterm)
  unfold anthropicPhase
  try simp only []
  rw [if_neg (by simp [h1e])]
  have hs2exit : (logM (anthropicTurn sc.anthropic { s with started := true }).1
      anthropicName).shouldExit = false := by simp [logM, h1e]
  have hInv2 : Inv (logM (anthropicTurn sc.anthropic
      { s with started := true }).1 anthropicName) :=
    hInv1.log_turnLabel h1e _ (by decide)
  by_cases hf : shouldFinish (logM (anthropicTurn sc.anthropic
      { s with started := true }).1 anthropicName) = true
  · rw [if_pos hf]
    have hEOF := (finish_spec env (logM (anthropicTurn sc.anthropic
      { s with started := true }).1 anthropicName) hInv2).2.2.2.2.2.2 hs2exit
    simp only [PhaseRes.state]
    exact ⟨fun _ => hf, fun _ => hEOF⟩
  · rw [if_neg hf]
    rw [if_neg (show ((logM (anthropicTurn sc.anthropic
        { s with started := true }).1 anthropicName).shouldExit = true) → False by
      simp [logM, h1e])]
    rw [if_neg (show ((emit (logM (anthropicTurn sc.anthropic
        { s with started := true }).1 anthropicName) .sleepStep).shouldExit = true) → False by
      simp [logM, h1e])]
    have hnoEOF1 : hasEvK EventKind.isEOF
        (anthropicTurn sc.anthropic { s with started := true }).1.trace = false :=
      noEOF_of_invExit hInv1 h1e
    have hnoEOF : hasEvK EventKind.isEOF
        (emit (logM (anthropicTurn sc.anthropic
          { s with started := true }).1 anthropicName) .sleepStep).trace = false := by
      simp only [logM, emit_trace]
      rw [hasEvK_append_one, hasEvK_append_one, hnoEOF1]
      simp [EventKind.isEOF, anthropicName]
    simp only [PhaseRes.state]
    constructor
    · intro hc
      rw [hnoEOF] at hc
      cases hc
    · intro hc
      exact absurd hc hf

/-- A successful proposal call leaves exactly the caller's fresh proposal
pending. -/
lemma setAdditional_success_pending (side : ModelSide) (i now : String) (σ : KVState)
    (h : (setAdditionalSystemInstructions side i now σ).1.success = true) :
    jsTrim i ≠ "" ∧
    (setAdditionalSystemInstructions side i now σ).2.pending
      = some { instructions := jsTrim i, requestedBy := side, createdAt := now } := by
  unfold setAdditionalSystemInstructions at h ⊢
  try simp only [] at h ⊢
  by_cases ht : jsTrim i = ""
  · rw [if_pos ht] at h
    exact absurd h (by simp)
  · rw [if_neg ht] at h ⊢
    refine ⟨ht, ?_⟩
    rcases hp : readPendingSystemInstructions σ with _ | ep
    · simp [writePendingSystemInstructions]
    · rw [hp] at h
      try simp only [] at h ⊢
      by_cases hr : ep.requestedBy = side
      · rw [if_neg (by simp [hr])] at h ⊢
        simp [writePendingSystemInstructions]
      · rw [if_pos (by simp [hr])] at h
        exact absurd h (by simp)

/-- Membership in the deduplicated list implies membership in the input. -/
lemma dedupFirst_subset : ∀ (seen l : List String) (t : String),
    t ∈ dedupFirst seen l → t ∈ l := by
  intro seen l
  induction l generalizing seen with
  | nil =>
    intro t ht
    simp [dedupFirst] at ht
  | cons a rest ih =>
    intro t ht
    unfold dedupFirst at ht
    by_cases hm : a ∈ seen
    · rw [if_pos hm] at ht
      exact List.mem_cons_of_mem a (ih seen t ht)
    · rw [if_neg hm] at ht
      rcases List.mem_cons.mp ht with h | h
      · exact h ▸ List.mem_cons_self a rest
      · exact List.mem_cons_of_mem a (ih (a :: seen) t h)

/-- When every raw term of the query is shorter than two UTF-16 code units,
the searched term list is empty. -/
lemma graphRagTerms_eq_nil (q : String)
    (h : ∀ t ∈ rawTerms q, utf16Length t < 2) : graphRagTerms q = [] := by
  unfold graphRagTerms
  apply List.filter_eq_nil_iff.mpr
  intro t ht
  have hshort := h t (dedupFirst_subset [] (rawTerms q) t ht)
  simp only [decide_eq_true_eq]
  omega

/-- The openai response loop throws at once on an empty output array. -/
lemma openaiLoop_emptyOutput (t : DialogState) (ht : t.shouldExit = false) :
    openaiLoop [] emptyOpenAIResponse t = (.thrown, t, []) := by
  unfold openaiLoop
  rw [if_neg (by simp [ht])]
  rw [if_pos (by decide : emptyOpenAIResponse.output.isEmpty = true)]

/-- The openai executor on a single empty-output response: the thrown
empty-output exception lands in the catch block. -/
lemma openaiTurn_emptyOutput (s : DialogState) (hs : s.shouldExit = false) :
    openaiTurn env0 [emptyOpenAIResponse] s
      = (openaiCatch (emit (emit s (.turnStart .openai)) (.vendorCall .openai)), []) := by
  unfold openaiTurn
  rw [if_neg (by simp [hs])]
  try simp only []
  rw [if_neg (show ¬ ((emit s (.turnStart .openai)).shouldExit = true) from by simp [hs])]
  rw [if_neg (show ¬ (openaiHushCeiling < env0.est (emit s (.turnStart .openai)).messages
    + 500) from by simp [env0, openaiHushCeiling])]
  simp only [vendorCallO]
  try simp only []
  rw [if_neg (show ¬ ((emit (emit s (.turnStart .openai))
    (.vendorCall .openai)).shouldExit = true) from by simp [hs])]
  rw [if_neg (show ¬ (emptyOpenAIResponse.usageDetails = true) from by decide)]
  rw [if_neg (show ¬ ((emit (emit s (.turnStart .openai))
    (.vendorCall .openai)).shouldExit = true) from by simp [hs])]
  rw [openaiLoop_emptyOutput _ (by simp [hs])]
  rw [if_neg (show ¬ ((emit s (.turnStart .openai)).shouldExit = true) from by simp [hs])]

/-- The anthropic while loop on a single response with no content blocks:
the silence path pushes an empty message. -/
lemma anthropicLoop_silent (t : DialogState) (ht : t.shouldExit = false) :
    anthropicLoop [silentAnthropicResponse] t
      = (.ok (), pushMsg (emit t (.vendorCall .anthropic)) .anthropic "", []) := by
  unfold anthropicLoop
  rw [if_neg (by simp [ht])]
  try simp only [silentAnthropicResponse]
  try simp only [logThinking]
  simp [ht, anthropicHushCeiling]

/-- The anthropic executor on a single response with no content blocks:
an empty utterance is recorded, nothing is thrown. -/
lemma anthropicTurn_silent (s : DialogState) (hs : s.shouldExit = false) :
    anthropicTurn [silentAnthropicResponse] s
      = (pushMsg (emit (emit s (.turnStart .anthropic)) (.vendorCall .anthropic))
           .anthropic "", []) := by
  unfold anthropicTurn
  rw [if_neg (by simp [hs])]
  try simp only []
  rw [if_neg (show ¬ ((emit s (.turnStart .anthropic)).shouldExit = true) from by simp [hs])]
  rw [anthropicLoop_silent _ (by simp [hs])]

/-! ## The claims -/

/-- C1 (corrected).  The claim predicts that a second
set_additional_system_instructions call by the same side, before the other
side agrees, returns success:false.  The source only rejects a proposal
when the pending proposal was requested by the OTHER side
(existingPending.requestedBy !== modelSide); a side rewriting its own
pending proposal succeeds and overwrites it.  Amended statement: after a
successful proposal by some side, a further call by that same side with
nonblank instructions succeeds again, while a call by the other side fails
with the fixed blocking error. -/
theorem C1_same_side_reproposal_amended (side : ModelSide) (i1 i2 n1 n2 : String)
    (σ : KVState)
    (h1 : (setAdditionalSystemInstructions side i1 n1 σ).1.success = true)
    (h2 : jsTrim i2 ≠ "") :
    (setAdditionalSystemInstructions side i2 n2
        (setAdditionalSystemInstructions side i1 n1 σ).2).1.success = true ∧
    (setAdditionalSystemInstructions side.other i2 n2
        (setAdditionalSystemInstructions side i1 n1 σ).2).1
      = { success := false, error := some otherSidePendingError,
          pending := none, requested_by := none } := by
  obtain ⟨ht1, hpend⟩ := setAdditional_success_pending side i1 n1 σ h1
  have hread : readPendingSystemInstructions (setAdditionalSystemInstructions side i1 n1 σ).2
      = some ⟨jsTrim i1, side, n1⟩ := by
    unfold readPendingSystemInstructions
    rw [hpend]
    try simp only []
    rw [if_neg ht1]
  have key : ∀ σ1 : KVState,
      readPendingSystemInstructions σ1 = some ⟨jsTrim i1, side, n1⟩ →
      (setAdditionalSystemInstructions side i2 n2 σ1).1.success = true ∧
      (setAdditionalSystemInstructions side.other i2 n2 σ1).1
        = { success := false, error := some otherSidePendingError,
            pending := none, requested_by := none } := by
    intro σ1 hr1
    constructor
    · unfold setAdditionalSystemInstructions
      try simp only []
      rw [if_neg h2, hr1]
      try simp only []
      rw [if_neg (show ¬ ((⟨jsTrim i1, side, n1⟩ :
          PendingSystemInstructions).requestedBy ≠ side) from by simp)]
    · unfold setAdditionalSystemInstructions
      try simp only []
      rw [if_neg h2, hr1]
      try simp only []
      rw [if_pos (show ((⟨jsTrim i1, side, n1⟩ :
          PendingSystemInstructions).requestedBy ≠ side.other) from by
        cases side <;> simp [ModelSide.other])]
  exact key _ hread

/-- C1 counterexample: with an empty store, a first proposal by the openai
side succeeds, and a second proposal by the SAME side, with no intervening
agreement, succeeds as well, contradicting the claimed success:false. -/
theorem C1_counterexample :
    (setAdditionalSystemInstructions .openai "A" "t0" kv0).1.success = true ∧
    (setAdditionalSystemInstructions .openai "B" "t1"
        (setAdditionalSystemInstructions .openai "A" "t0" kv0).2).1.success = true := by
  decide

/-- Witness for the amended C1 statement at a concrete store. -/
theorem C1_amended_witness :
    (setAdditionalSystemInstructions ModelSide.openai "A" "t0" kv0).1.success = true ∧
    jsTrim "B" ≠ "" ∧
    (setAdditionalSystemInstructions (ModelSide.other ModelSide.openai) "B" "t1"
        (setAdditionalSystemInstructions ModelSide.openai "A" "t0" kv0).2).1
      = { success := false, error := some otherSidePendingError,
          pending := none, requested_by := none } :=
  ⟨by decide, by decide,
   (C1_same_side_reproposal_amended ModelSide.openai "A" "B" "t0" "t1" kv0
     (by decide) (by decide)).2⟩

/-- C2 (confirmed).  agree_to_system_instructions_change returns
success:false when nothing is pending, success:false when the caller is the
proposer, and on a call by the other side returns success:true, copies the
proposed instructions into both participant records and clears the pending
file. -/
theorem C2_agree_protocol (side : ModelSide) (σ : KVState) :
    (readPendingSystemInstructions σ = none →
      agreeToSystemInstructionsChange side σ
        = ({ success := false, committed := none, error := some noPendingError }, σ)) ∧
    (∀ p : PendingSystemInstructions, readPendingSystemInstructions σ = some p →
      p.requestedBy = side →
      agreeToSystemInstructionsChange side σ
        = ({ success := false, committed := none, error := some ownProposalError }, σ)) ∧
    (∀ p : PendingSystemInstructions, readPendingSystemInstructions σ = some p →
      p.requestedBy ≠ side →
      (agreeToSystemInstructionsChange side σ).1
          = { success := true, committed := some true, error := none } ∧
      (readModelData (agreeToSystemInstructionsChange side σ).2
          .openai).additionalSystemInstructions = p.instructions ∧
      (readModelData (agreeToSystemInstructionsChange side σ).2
          .anthropic).additionalSystemInstructions = p.instructions ∧
      readPendingSystemInstructions (agreeToSystemInstructionsChange side σ).2 = none) := by
  refine ⟨?_, ?_, ?_⟩
  · intro h
    unfold agreeToSystemInstructionsChange
    rw [h]
  · intro p hp hreq
    unfold agreeToSystemInstructionsChange
    rw [hp]
    try simp only []
    rw [if_pos hreq]
  · intro p hp hreq
    unfold agreeToSystemInstructionsChange
    rw [hp]
    try simp only []
    rw [if_neg hreq]
    refine ⟨rfl, ?_, ?_, ?_⟩
    · simp [writePendingSystemInstructions, commitSystemInstructions,
        writeModelData, readModelData]
    · simp [writePendingSystemInstructions, commitSystemInstructions,
        writeModelData, readModelData]
    · simp [readPendingSystemInstructions, writePendingSystemInstructions]

/-- Witness for C2 on a store with a proposal pending from the openai
side, agreed to by the anthropic side. -/
theorem C2_witness :
    readPendingSystemInstructions kvPending
      = some { instructions := "X", requestedBy := ModelSide.openai, createdAt := "t" } ∧
    (agreeToSystemInstructionsChange ModelSide.anthropic kvPending).1
      = { success := true, committed := some true, error := none } ∧
    readPendingSystemInstructions
      (agreeToSystemInstructionsChange ModelSide.anthropic kvPending).2 = none :=
  ⟨by decide,
   ((C2_agree_protocol ModelSide.anthropic kvPending).2.2
      { instructions := "X", requestedBy := ModelSide.openai, createdAt := "t" }
      (by decide) (by decide)).1,
   ((C2_agree_protocol ModelSide.anthropic kvPending).2.2
      { instructions := "X", requestedBy := ModelSide.openai, createdAt := "t" }
      (by decide) (by decide)).2.2.2⟩

/-- C9 (confirmed).  A blank (empty or whitespace-only) systemInstructions
argument makes set_additional_system_instructions return success:false with
the fixed error message and leave the store, including the pending file,
untouched. -/
theorem C9_blank_instructions_rejected (side : ModelSide) (instr now : String)
    (σ : KVState) (h : jsTrim instr = "") :
    setAdditionalSystemInstructions side instr now σ
      = ({ success := false, error := some emptyInstructionsError,
           pending := none, requested_by := none }, σ) := by
  unfold setAdditionalSystemInstructions
  try simp only []
  rw [if_pos h]

/-- Witness for C9 with a whitespace-only argument. -/
theorem C9_witness :
    jsTrim "  " = "" ∧
    setAdditionalSystemInstructions ModelSide.openai "  " "t" kv0
      = ({ success := false, error := some emptyInstructionsError,
           pending := none, requested_by := none }, kv0) :=
  ⟨by decide, C9_blank_instructions_rejected ModelSide.openai "  " "t" kv0 (by decide)⟩

/-- C8 (confirmed).  When every token of the query (after splitting on the
punctuation and whitespace classes and deduplicating) is shorter than two
UTF-16 code units, graph_rag_query returns the fixed no-search-terms
context and issues no seed query, no expansion query and no condensing
call. -/
theorem C8_graphrag_no_terms (store : GraphStore) (condense : String → Option String)
    (query : Option String) (max_hops max_seeds : JsNum)
    (h : ∀ t ∈ rawTerms (query.getD ""), utf16Length t < 2) :
    graphRagQueryHandler store condense query max_hops max_seeds
      = ({ context := graphRagNoTermsContext (query.getD "") }, []) := by
  have hterms := graphRagTerms_eq_nil (query.getD "") h
  unfold graphRagQueryHandler
  try simp only []
  rw [hterms, if_pos (by decide : ([] : List String).length < 1)]

/-- Witness for C8 on a query of single-character tokens. -/
theorem C8_witness :
    (∀ t ∈ rawTerms ((some "a、b。c").getD ""), utf16Length t < 2) ∧
    graphRagQueryHandler store0 (fun _ => none) (some "a、b。c") JsNum.nan JsNum.nan
      = ({ context := graphRagNoTermsContext ((some "a、b。c").getD "") }, []) :=
  ⟨by decide,
   C8_graphrag_no_terms store0 (fun _ => none) (some "a、b。c") JsNum.nan JsNum.nan
     (by decide)⟩

/-- C10 (confirmed).  The sleep tool handler is total by construction; it
starts a timer exactly for a finite waiting time strictly between 0 and
1800 seconds, returning the elapsed-time message, and returns the fixed
range error without sleeping on every other input (including the NaN that
a missing or non-numeric seconds argument coerces to). -/
theorem C10_sleep_total (v : JsNum) :
    (∀ q : ℚ, v = .finite q → 0 < q → q < 1800 →
      sleepToolHandler v = ({ message := sleepElapsedMessage q }, some q)) ∧
    ((∀ q : ℚ, v = .finite q → q ≤ 0 ∨ 1800 ≤ q) →
      sleepToolHandler v = ({ message := sleepRangeError }, none)) := by
  constructor
  · intro q hv h0 h1
    subst hv
    unfold sleepToolHandler
    try simp only []
    rw [if_neg (show ¬ (q ≤ 0 ∨ 1800 ≤ q) from by push_neg; exact ⟨h0, h1⟩)]
  · intro hq
    cases v with
    | finite q =>
      unfold sleepToolHandler
      try simp only []
      rw [if_pos (hq q rfl)]
    | nan => rfl
    | posInf => rfl
    | negInf => rfl

/-- Witness for C10 at 65 seconds and at NaN. -/
theorem C10_witness :
    sleepToolHandler (JsNum.finite 65)
      = ({ message := sleepElapsedMessage 65 }, some 65) ∧
    sleepToolHandler JsNum.nan = ({ message := sleepRangeError }, none) :=
  ⟨(C10_sleep_total (JsNum.finite 65)).1 65 rfl (by norm_num) (by norm_num),
   (C10_sleep_total JsNum.nan).2 (fun q hq => absurd hq (by simp))⟩

/-- C5 (corrected).  The claim holds for the openai executor: an empty
output array raises the empty-output exception, incrementing the failure
counter and substituting the fixed placeholder message.  The anthropic
executor however treats a response with no non-thinking content blocks as
silence: it appends an EMPTY utterance without incrementing its failure
counter and without the placeholder.  Neither executor crashes.  The
amended statement records both behaviours. -/
theorem C5_no_output_handling_amended (s : DialogState) (hs : s.shouldExit = false) :
    (openaiTurn env0 [emptyOpenAIResponse] s).1.openaiFailureCount
        = s.openaiFailureCount + 1 ∧
    lastContent (openaiTurn env0 [emptyOpenAIResponse] s).1
        = openaiName ++ stillThinkingSuffix ∧
    (anthropicTurn [silentAnthropicResponse] s).1.anthropicFailureCount
        = s.anthropicFailureCount ∧
    (anthropicTurn [silentAnthropicResponse] s).1.messages
        = s.messages ++ [{ name := .anthropic, content := "" }] ∧
    lastContent (anthropicTurn [silentAnthropicResponse] s).1 = "" := by
  rw [openaiTurn_emptyOutput s hs, anthropicTurn_silent s hs]
  refine ⟨?_, ?_, ?_, ?_, ?_⟩
  · unfold openaiCatch
    rw [if_neg (by simp [hs])]
    try simp only []
    simp
  · unfold openaiCatch
    rw [if_neg (by simp [hs])]
    try simp only []
    simp
  · simp
  · simp
  · simp

/-- C5 counterexample: on a contentless anthropic response the anthropic
failure counter stays at zero and the recorded utterance is the empty
string, not the placeholder the claim predicts. -/
theorem C5_counterexample :
    (anthropicTurn [silentAnthropicResponse]
        (initialState .anthropic kv0)).1.anthropicFailureCount = 0 ∧
    lastContent (anthropicTurn [silentAnthropicResponse]
        (initialState .anthropic kv0)).1 = "" := by
  decide

/-- Witness for the amended C5 statement at the initial state. -/
theorem C5_amended_witness :
    (initialState ModelSide.openai kv0).shouldExit = false ∧
    (openaiTurn env0 [emptyOpenAIResponse]
        (initialState ModelSide.openai kv0)).1.openaiFailureCount
      = (initialState ModelSide.openai kv0).openaiFailureCount + 1 :=
  ⟨rfl, (C5_no_output_handling_amended (initialState ModelSide.openai kv0) rfl).1⟩

/-- C3 (corrected).  The claim that once terminationAccepted is set no
further tool dispatch or vendor call occurs is refuted by the source: the
terminate_dialog handler returns into the running turn, whose remaining
follow-up vendor requests still run, and the finish sequence then issues
its postprocessing requests (C3_counterexample).  What does hold in every
run, asserted here: no turn executor starts once the flag is set, and no
log record follows the terminal EOF record. -/
theorem C3_termination_quiescence_amended (env : Env) (fuel : Nat) (sc : Scripts)
    (side : ModelSide) (kv : KVState) :
    ((runModel env fuel sc side kv).trace.all
      fun e => !(e.kind.isTurnBegin && e.termAccepted)) = true ∧
    okAfterEOFB (runModel env fuel sc side kv).trace = true := by
  obtain h := runModel_inv env fuel sc side kv
  exact ⟨h.ts, h.okEOF⟩

/-- C3 counterexample: a run whose openai response accepts the termination
and then triggers a follow-up request — the trace contains vendor requests
stamped with terminationAccepted already true. -/
theorem C3_counterexample :
    ((runModel env0 1 scTerm .anthropic kv0).trace.any
      fun e => e.termAccepted && e.kind.isVendorOrDispatch) = true := by
  decide

/-- C4 (confirmed).  The run loop leaves the running state and invokes the
finish sequence exactly when finishTurnCount reaches 2 or
terminationAccepted holds (the two phase-level equivalences, stated via the
terminal EOF record the finish sequence writes), and the counter is bumped
by exactly one at a hush checkpoint while the hush flag is set and never
otherwise: an unraised flag makes the checkpoint the identity, and a whole
run that never raised the flag ends with the counter still at zero.  In
the source both hush checkpoints sit in the openai half of the loop
body. -/
theorem C4_termination_predicate_and_checkpoints :
    (∀ s : DialogState,
      shouldFinish s = (decide (2 ≤ s.finishTurnCount) || s.terminationAccepted)) ∧
    (∀ s : DialogState, s.hushFinish = true →
      (bumpIfHush s).finishTurnCount = s.finishTurnCount + 1) ∧
    (∀ s : DialogState, s.hushFinish = false → bumpIfHush s = s) ∧
    (∀ (env : Env) (fuel : Nat) (sc : Scripts) (side : ModelSide) (kv : KVState),
      (runModel env fuel sc side kv).hushFinish = false →
      (runModel env fuel sc side kv).finishTurnCount = 0) ∧
    (∀ (env : Env) (sc : Scripts) (s : DialogState), Inv s →
      s.terminationAccepted = false →
      (openaiTurn env sc.openai { s with started := true }).1.shouldExit = false →
      (hasEvK EventKind.isEOF (openaiPhase env sc s).1.state.trace = true ↔
       shouldFinish (logM (bumpIfHush
         (openaiTurn env sc.openai { s with started := true }).1) openaiName) = true)) ∧
    (∀ (env : Env) (sc : Scripts) (s : DialogState), Inv s →
      s.terminationAccepted = false →
      (anthropicTurn sc.anthropic { s with started := true }).1.shouldExit = false →
      (hasEvK EventKind.isEOF (anthropicPhase env sc s).1.state.trace = true ↔
       shouldFinish (logM (anthropicTurn sc.anthropic
         { s with started := true }).1 anthropicName) = true)) := by
  refine ⟨fun s => rfl, fun s hh => ?_, fun s hh => ?_, runModel_hz,
    openaiPhase_finish_iff, anthropicPhase_finish_iff⟩
  · unfold bumpIfHush
    rw [if_pos hh]
  · unfold bumpIfHush
    rw [if_neg (by simp [hh])]

/-- Witness for C4: a raised hush flag makes the checkpoint increment, and
the openai phase equivalence instantiated at the initial state with
exhausted scripts. -/
theorem C4_witness :
    ({ initialState ModelSide.openai kv0 with hushFinish := true }).hushFinish = true ∧
    (bumpIfHush { initialState ModelSide.openai kv0 with
        hushFinish := true }).finishTurnCount
      = ({ initialState ModelSide.openai kv0 with
          hushFinish := true }).finishTurnCount + 1 ∧
    (hasEvK EventKind.isEOF (openaiPhase env0 emptyScripts
        (initialState ModelSide.openai kv0)).1.state.trace = true ↔
     shouldFinish (logM (bumpIfHush (openaiTurn env0 emptyScripts.openai
        { initialState ModelSide.openai kv0 with started := true }).1) openaiName)
       = true) :=
  ⟨rfl,
   C4_termination_predicate_and_checkpoints.2.1 _ rfl,
   C4_termination_predicate_and_checkpoints.2.2.2.2.1 env0 emptyScripts
     (initialState ModelSide.openai kv0) (initialState_inv ModelSide.openai kv0)
     rfl (by decide)⟩

/-- C6 (confirmed).  A run whose trace contains an abort_process dispatch
has no postprocessing record at all: no POSTPROC_SUMMARY, POSTPROC_GRAPH or
POSTPROC_NEO4J record and no EOF record (isPostproc covers exactly these
four labels). -/
theorem C6_abort_no_postprocessing (env : Env) (fuel : Nat) (sc : Scripts)
    (side : ModelSide) (kv : KVState)
    (h : hasEvK EventKind.isAbortDispatch (runModel env fuel sc side kv).trace = true) :
    hasEvK EventKind.isPostproc (runModel env fuel sc side kv).trace = false :=
  ((runModel_inv env fuel sc side kv).abortNoPost h).2

/-- Witness for C6 on a run aborted by its first openai response. -/
theorem C6_witness :
    hasEvK EventKind.isAbortDispatch (runModel env0 1 scAbort .anthropic kv0).trace
      = true ∧
    hasEvK EventKind.isPostproc (runModel env0 1 scAbort .anthropic kv0).trace = false :=
  ⟨by decide, C6_abort_no_postprocessing env0 1 scAbort .anthropic kv0 (by decide)⟩

/-- C7 (confirmed).  The finish sequence is idempotent — a second
invocation on the result of a first returns it unchanged, guarded by the
shouldExit flag it sets — and consequently every run's trace carries at
most one EOF record. -/
theorem C7_finish_idempotent (env : Env) (s : DialogState) (hInv : Inv s) :
    finish env (finish env s) = finish env s ∧
    ∀ (fuel : Nat) (sc : Scripts) (side : ModelSide) (kv : KVState),
      ((runModel env fuel sc side kv).trace.countP fun e => e.kind.isEOF) ≤ 1 := by
  constructor
  · obtain h1 := finish_spec env s hInv
    obtain h2 := finish_spec env (finish env s) h1.1
    exact h2.2.2.1 h1.2.1
  · intro fuel sc side kv
    exact okAfterEOFB_countEOF (runModel_inv env fuel sc side kv).okEOF

/-- Witness for C7 at the initial state. -/
theorem C7_witness :
    finish env0 (finish env0 (initialState ModelSide.openai kv0))
      = finish env0 (initialState ModelSide.openai kv0) :=
  (C7_finish_idempotent env0 (initialState ModelSide.openai kv0)
    (initialState_inv ModelSide.openai kv0)).1

end PhilosophyDialog
